import Mathlib

set_option maxHeartbeats 1000000

/-!
Verification of the rusty-games autonomous robot simulation.

This file gives a shallow embedding of the core data model and operations of
the simulation (src/map.rs, src/robot.rs, src/station.rs, src/main.rs) and
proves properties of the embedded operations.  Machine integers (`u32`,
`usize`) are modelled as `Nat`; Rust's `saturating_sub` is `Nat` subtraction.
Stateful methods become functions returning updated values.
-/

/-! ## Data model (src/map.rs) -/

abbrev Pos : Type := Nat × Nat

inductive CellType : Type where
  | Empty : CellType
  | Obstacle : CellType
  | Energy : Nat → CellType
  | Mineral : Nat → CellType
  | SciencePoint : CellType
deriving DecidableEq, Repr

structure Cell : Type where
  cell_type : CellType
  explored : Bool
deriving DecidableEq, Repr

structure Map : Type where
  width : Nat
  height : Nat
  cells : List (List Cell)
deriving DecidableEq, Repr

/-- Rust `Map::is_valid_position`. -/
def Map.is_valid_position (m : Map) (x y : Nat) : Bool :=
  decide (x < m.width) && decide (y < m.height)

/-- Rust `Map::get_cell`: bounds-checked cell access.  The `Vec<Vec<Cell>>` is
modelled as a list of rows indexed `cells[y][x]`. -/
def Map.get_cell (m : Map) (x y : Nat) : Option Cell :=
  if m.is_valid_position x y then (m.cells[y]?).bind (fun row => row[x]?) else none

/-- Well-formedness that the Rust type system guarantees for `Vec<Vec<Cell>>`
built by `Map::new`: `height` rows of `width` cells each. -/
def Map.WF (m : Map) : Prop :=
  m.cells.length = m.height ∧ ∀ row ∈ m.cells, row.length = m.width

/-- Point update of a list, leaving out-of-range indices unchanged
(models an in-place `Vec` element assignment). -/
def listModify (f : α → α) : Nat → List α → List α
  | _, [] => []
  | 0, a :: t => f a :: t
  | n + 1, a :: t => a :: listModify f n t

/-- In-place mutation through Rust `Map::get_cell_mut`. -/
def Map.modifyCell (m : Map) (x y : Nat) (f : Cell → Cell) : Map :=
  { m with cells := listModify (fun row => listModify f x row) y m.cells }

/-- Rust `Map::explore`: mark a cell explored, reporting whether the position
was valid. -/
def Map.explore (m : Map) (x y : Nat) : Map × Bool :=
  if m.is_valid_position x y then
    (m.modifyCell x y (fun c => { c with explored := true }), true)
  else (m, false)

/-- Rust `Map::collect_resource`: drain a resource cell, returning the drained
kind (amounts zeroed in the returned tag, as in the source) and the amount. -/
def Map.collect_resource (m : Map) (x y : Nat) : Option (CellType × Nat) × Map :=
  match m.get_cell x y with
  | some cell =>
    match cell.cell_type with
    | CellType.Energy amount =>
        (some (CellType.Energy 0, amount), m.modifyCell x y (fun c => { c with cell_type := CellType.Empty }))
    | CellType.Mineral amount =>
        (some (CellType.Mineral 0, amount), m.modifyCell x y (fun c => { c with cell_type := CellType.Empty }))
    | CellType.SciencePoint =>
        (some (CellType.SciencePoint, 1), m.modifyCell x y (fun c => { c with cell_type := CellType.Empty }))
    | _ => (none, m)
  | none => (none, m)

/-! ## Robot data model (src/robot.rs) -/

def INITIAL_ROBOT_ENERGY : Nat := 100

inductive Direction : Type where
  | North : Direction
  | East : Direction
  | South : Direction
  | West : Direction
deriving DecidableEq, Repr

inductive RobotType : Type where
  | Explorer : RobotType
  | EnergyCollector : RobotType
  | MineralCollector : RobotType
  | Scientist : RobotType
deriving DecidableEq, Repr

inductive RobotState : Type where
  | Exploring : RobotState
  | ReturningToStation : RobotState
  | AtStation : RobotState
deriving DecidableEq, Repr

structure Robot : Type where
  x : Nat
  y : Nat
  energy : Nat
  minerals : Nat
  science_points : Nat
  pending_exploration_updates : List (Pos × CellType)
  robot_type : RobotType
  state : RobotState
  target_x : Option Nat
  target_y : Option Nat
  steps_since_last_find : Nat
deriving DecidableEq, Repr

/-- The inner robot-occupancy test of Rust `Robot::is_valid_move`. -/
def occupiedByActiveRobot (robots : List Robot) (x y : Nat) : Bool :=
  robots.any (fun r => r.x == x && r.y == y && decide (r.energy > 0))

def isObstacleCell : CellType → Bool
  | CellType.Obstacle => true
  | _ => false

/-- Rust `Robot::is_valid_move` (it does not read `self`): the target cell
exists, is not an obstacle, and holds no other robot with positive energy. -/
def is_valid_move (m : Map) (robots : List Robot) (x y : Nat) : Bool :=
  match m.get_cell x y with
  | some cell => !(isObstacleCell cell.cell_type) && !(occupiedByActiveRobot robots x y)
  | none => false

/-- Rust `Robot::get_next_position`. -/
def Robot.get_next_position (r : Robot) (dir : Direction) (m : Map) : Option Pos :=
  match dir with
  | Direction.North => if r.y = 0 then none else some (r.x, r.y - 1)
  | Direction.East => if r.x ≥ m.width - 1 then none else some (r.x + 1, r.y)
  | Direction.South => if r.y ≥ m.height - 1 then none else some (r.x, r.y + 1)
  | Direction.West => if r.x = 0 then none else some (r.x - 1, r.y)

/-- Rust `Robot::move_in_direction`: boundary check, validity check, then the
move with a saturating 1-energy cost. -/
def Robot.move_in_direction (r : Robot) (dir : Direction) (m : Map) (others : List Robot) :
    Robot × Bool :=
  match r.get_next_position dir m with
  | none => (r, false)
  | some (nx, ny) =>
    if is_valid_move m others nx ny then
      ({ r with x := nx, y := ny, energy := r.energy - 1 }, true)
    else (r, false)

/-- Rust `Robot::collect_resource`: drain the map cell under the robot and
credit the robot with the proceeds. -/
def Robot.collect_resource (r : Robot) (m : Map) : Robot × Map × Bool :=
  match Map.collect_resource m r.x r.y with
  | (some (resource_type, amount), m') =>
    match resource_type with
    | CellType.Energy _ => ({ r with energy := r.energy + amount }, m', true)
    | CellType.Mineral _ => ({ r with minerals := r.minerals + amount }, m', true)
    | CellType.SciencePoint => ({ r with science_points := r.science_points + amount }, m', true)
    | _ => (r, m', false)
  | (none, m') => (r, m', false)

/-- Rust `Robot::explore`: mark the current cell explored and append the
cell's (post-extraction) type to the pending exploration updates. -/
def Robot.explore (r : Robot) (m : Map) : Robot × Map × Bool :=
  let em := Map.explore m r.x r.y
  if em.2 then
    match em.1.get_cell r.x r.y with
    | some cell_data =>
        ({ r with pending_exploration_updates :=
            r.pending_exploration_updates ++ [((r.x, r.y), cell_data.cell_type)] }, em.1, true)
    | none => (r, em.1, true)
  else (r, m, false)

/-- Rust `Robot::unload_payload`: surrender energy above the baseline and all
minerals and science points; returns the payload triple and the updated robot. -/
def Robot.unload_payload (r : Robot) : (Nat × Nat × Nat) × Robot :=
  let energy_payload := r.energy - INITIAL_ROBOT_ENERGY
  let r1 := { r with energy := r.energy - energy_payload }
  let minerals_payload := r1.minerals
  let r2 := { r1 with minerals := 0 }
  let science_payload := r2.science_points
  let r3 := { r2 with science_points := 0 }
  ((energy_payload, minerals_payload, science_payload), r3)

/-- Rust `Robot::should_return_to_station`. -/
def Robot.should_return_to_station (r : Robot) : Bool :=
  if r.energy ≤ 20 then true
  else
    match r.robot_type with
    | RobotType.Explorer =>
        decide (r.energy ≤ 25) || decide (r.pending_exploration_updates.length > 30)
    | RobotType.EnergyCollector =>
        decide (r.energy ≤ 25) || decide (r.energy > INITIAL_ROBOT_ENERGY + 70)
    | RobotType.MineralCollector =>
        decide (r.minerals > 35) || decide (r.energy ≤ 25)
    | RobotType.Scientist =>
        decide (r.science_points > 6) || decide (r.energy ≤ 25)

/-- Rust `Robot::found_something_at_current_position`. -/
def Robot.found_something_at_current_position (r : Robot) (m : Map) : Bool :=
  match m.get_cell r.x r.y with
  | some cell =>
    match cell.cell_type with
    | CellType.Energy _ => true
    | CellType.Mineral _ => true
    | CellType.SciencePoint => true
    | _ => false
  | none => false

/-! ## Station (src/station.rs) -/

def ROBOT_ENERGY_COST : Nat := 100
def ROBOT_MINERAL_COST : Nat := 50

structure Station : Type where
  x : Nat
  y : Nat
  energy : Nat
  minerals : Nat
  science_points : Nat
  known_map : List (Pos × CellType)
  robots : List Robot
deriving Repr

/-- The valuable-cell scan loop of Rust `Station::should_create_robot`. -/
def valuableCellCount (entries : List (Pos × CellType)) : Nat :=
  entries.foldl
    (fun acc e =>
      match e.2 with
      | CellType.Energy amount => if amount > 0 then acc + 1 else acc
      | CellType.Mineral amount => if amount > 0 then acc + 1 else acc
      | CellType.SciencePoint => acc + 1
      | _ => acc)
    0

/-- Rust `Station::should_create_robot` with its inline constants
(cap 12, mineral buffer 100, energy buffer 300, min valuable cells 2). -/
def Station.should_create_robot (st : Station) : Bool :=
  if st.robots.length ≥ 12 then false
  else if st.minerals < ROBOT_MINERAL_COST + 100 || st.energy < ROBOT_ENERGY_COST + 300 then false
  else if valuableCellCount st.known_map < 2 then false
  else true

structure TypeCounts : Type where
  explorer : Nat
  energy_collector : Nat
  mineral_collector : Nat
  scientist : Nat
deriving DecidableEq, Repr

/-- The robot-census loop of Rust `Station::choose_robot_type`. -/
def robotTypeCounts (robots : List Robot) : TypeCounts :=
  robots.foldl
    (fun acc r =>
      match r.robot_type with
      | RobotType.Explorer => { acc with explorer := acc.explorer + 1 }
      | RobotType.EnergyCollector => { acc with energy_collector := acc.energy_collector + 1 }
      | RobotType.MineralCollector => { acc with mineral_collector := acc.mineral_collector + 1 }
      | RobotType.Scientist => { acc with scientist := acc.scientist + 1 })
    ⟨0, 0, 0, 0⟩

structure KnownCounts : Type where
  energy_sources : Nat
  mineral_sources : Nat
  science_sources : Nat
  unexplored_cells : Nat
deriving DecidableEq, Repr

/-- The known-map census loop of Rust `Station::choose_robot_type`. -/
def knownMapCounts (entries : List (Pos × CellType)) : KnownCounts :=
  entries.foldl
    (fun acc e =>
      match e.2 with
      | CellType.Energy amount =>
          if amount > 0 then { acc with energy_sources := acc.energy_sources + 1 } else acc
      | CellType.Mineral amount =>
          if amount > 0 then { acc with mineral_sources := acc.mineral_sources + 1 } else acc
      | CellType.SciencePoint => { acc with science_sources := acc.science_sources + 1 }
      | CellType.Empty => { acc with unexplored_cells := acc.unexplored_cells + 1 }
      | _ => acc)
    ⟨0, 0, 0, 0⟩

/-- Rust `Station::choose_robot_type`. -/
def Station.choose_robot_type (st : Station) : RobotType :=
  let rc := robotTypeCounts st.robots
  let mc := knownMapCounts st.known_map
  if rc.explorer = 0 || (mc.unexplored_cells > 10 && rc.explorer < 2) then RobotType.Explorer
  else if st.energy < 300 && mc.energy_sources > 0 && rc.energy_collector < 2 then
    RobotType.EnergyCollector
  else if mc.mineral_sources > mc.energy_sources && rc.mineral_collector < 2 then
    RobotType.MineralCollector
  else if mc.science_sources > 0 && rc.scientist < 1 then RobotType.Scientist
  else RobotType.Explorer

/-! ## Tick driver dead-robot respawn (src/main.rs, loop body) -/

/-- Body of the dead-robot respawn loop in `main`: a zero-energy robot is moved
to the station, parked `AtStation` with a cleared stuck counter, and refueled
to the baseline exactly when the station can afford it. -/
def respawnDeadRobot (station_x station_y : Nat) (r : Robot) (station_energy : Nat) :
    Robot × Nat :=
  if r.energy = 0 then
    let r1 := { r with x := station_x, y := station_y,
                       state := RobotState.AtStation, steps_since_last_find := 0 }
    if station_energy ≥ INITIAL_ROBOT_ENERGY then
      ({ r1 with energy := INITIAL_ROBOT_ENERGY }, station_energy - INITIAL_ROBOT_ENERGY)
    else (r1, station_energy)
  else (r, station_energy)

/-! ## Exploring-tick machinery (src/robot.rs)

The thread-local random generator is modelled as an oracle: a list of `Int`
draws, clamped into the requested range, so every theorem quantifying over the
oracle covers every behaviour of the real generator.  The `f32` trigonometry
that generates long-range scan offsets in `try_unstuck` is likewise abstracted
as an oracle `offs : Nat → Nat → Int × Int` giving the `(dx, dy)` offset cast
from `radius` and `angle`; the theorems hold for every such offset table. -/

abbrev Rng : Type := List Int

/-- Rust `rng.gen_range(lo..=hi)` under the draw oracle. -/
def genRange (lo hi : Int) (g : Rng) : Int × Rng :=
  match g with
  | [] => (lo, [])
  | v :: t => (if lo ≤ v ∧ v ≤ hi then v else lo, t)

/-- Rust `rng.gen_range(0..n)` on `usize` under the draw oracle. -/
def genRangeNat (n : Nat) (g : Rng) : Nat × Rng :=
  let vg := genRange 0 ((n : Int) - 1) g
  (vg.1.toNat, vg.2)

/-- The Rust clamp idiom `(v).max(0).min(dim as i32 - 1) as usize`. -/
def clampToDim (v : Int) (dim : Nat) : Nat :=
  (min (max v 0) ((dim : Int) - 1)).toNat

/-- The Rust wrapping cast `(v) as usize` applied to an `i32` index: negative
values become addresses beyond any grid, so the subsequent `get_cell` fails. -/
def castCellIndex (m : Map) (vx vy : Int) : Option Cell :=
  if vx < 0 ∨ vy < 0 then none else m.get_cell vx.toNat vy.toNat

/-- The `(dy, dx)` offsets of a 5-by-5 window scan, in loop order. -/
def offsets5x5 : List (Int × Int) :=
  (List.range 5).flatMap (fun dy => (List.range 5).map (fun dx => ((dy : Int) - 2, (dx : Int) - 2)))

/-- Rust `Robot::get_next_position_from`. -/
def get_next_position_from (x y : Nat) (dir : Direction) (m : Map) : Option Pos :=
  match dir with
  | Direction.North => if y = 0 then none else some (x, y - 1)
  | Direction.East => if x ≥ m.width - 1 then none else some (x + 1, y)
  | Direction.South => if y ≥ m.height - 1 then none else some (x, y + 1)
  | Direction.West => if x = 0 then none else some (x - 1, y)

/-- The unexplored-neighbour count of `Robot::calculate_explorer_score`
(5-by-5 clamped window around the candidate, centre excluded). -/
def unexploredNeighborCount5x5 (m : Map) (x y : Nat) : Nat :=
  offsets5x5.countP (fun (d : Int × Int) =>
    if d.1 = 0 ∧ d.2 = 0 then false
    else
      match m.get_cell (clampToDim ((x : Int) + d.2) m.width) (clampToDim ((y : Int) + d.1) m.height) with
      | some c => !c.explored
      | none => false)

/-- Rust `Robot::calculate_explorer_score`. -/
def calculate_explorer_score (r : Robot) (x y : Nat) (m : Map) : Int :=
  match m.get_cell x y with
  | none => 0
  | some cell =>
    let base : Int := if cell.explored then (-30) else 150
    let distance_from_current : Int :=
      (((x : Int) - (r.x : Int)).natAbs + ((y : Int) - (r.y : Int)).natAbs : Nat)
    let unexplored_neighbors : Int := unexploredNeighborCount5x5 m x y
    let edge : Int :=
      if x = 0 ∨ x = m.width - 1 ∨ y = 0 ∨ y = m.height - 1 then 40 else 0
    let corner : Int :=
      if (x = 0 ∨ x = m.width - 1) ∧ (y = 0 ∨ y = m.height - 1) then 20 else 0
    base + distance_from_current * 3 + unexplored_neighbors * 15 + edge + corner

/-- Rust `Robot::count_unexplored_cluster`. -/
def count_unexplored_cluster (m : Map) (cx cy : Nat) : Nat :=
  offsets5x5.countP (fun (d : Int × Int) =>
    match m.get_cell (clampToDim ((cx : Int) + d.2) m.width) (clampToDim ((cy : Int) + d.1) m.height) with
    | some c => !c.explored && !(isObstacleCell c.cell_type)
    | none => false)

/-- The look-ahead loop of `Robot::calculate_unexplored_potential`; the fuel
counts the remaining steps of the `1..=15` loop, so the distance weight
`16 - step` is `fuel + 1`. -/
def unexploredPotentialAux (m : Map) (dir : Direction) : Nat → Nat → Nat → Nat
  | 0, _, _ => 0
  | fuel + 1, x, y =>
    match get_next_position_from x y dir m with
    | none => 50
    | some (nx, ny) =>
      match m.get_cell nx ny with
      | some c =>
        if !c.explored then count_unexplored_cluster m nx ny * (fuel + 1)
        else unexploredPotentialAux m dir fuel nx ny
      | none => unexploredPotentialAux m dir fuel nx ny

/-- Rust `Robot::calculate_unexplored_potential`. -/
def calculate_unexplored_potential (m : Map) (x y : Nat) (dir : Direction) : Nat :=
  unexploredPotentialAux m dir 15 x y

/-- Rust `Robot::choose_direction_away_from_explored_areas`. -/
def choose_direction_away_from_explored_areas (r : Robot) (m : Map) (others : List Robot) :
    Option Direction :=
  ([Direction.North, Direction.East, Direction.South, Direction.West].foldl
    (fun (acc : Option Direction × Nat) dir =>
      match r.get_next_position dir m with
      | some (nx, ny) =>
        if is_valid_move m others nx ny then
          let potential := calculate_unexplored_potential m nx ny dir
          if potential > acc.2 then (some dir, potential) else acc
        else acc
      | none => acc)
    (none, 0)).1

/-- Rust `Robot::choose_explorer_direction`. -/
def choose_explorer_direction (r : Robot) (m : Map) (others : List Robot) : Option Direction :=
  let best := [Direction.North, Direction.East, Direction.South, Direction.West].foldl
    (fun (acc : Option Direction × Int) dir =>
      match r.get_next_position dir m with
      | some (nx, ny) =>
        if is_valid_move m others nx ny then
          let score := calculate_explorer_score r nx ny m
          if score > acc.2 then (some dir, score) else acc
        else acc
      | none => acc)
    (none, -1000)
  if best.1.isNone ∨ best.2 < 0 then choose_direction_away_from_explored_areas r m others
  else best.1

def isEnergyCellType : CellType → Bool
  | CellType.Energy _ => true
  | _ => false

def isMineralCellType : CellType → Bool
  | CellType.Mineral _ => true
  | _ => false

def isScienceCellType : CellType → Bool
  | CellType.SciencePoint => true
  | _ => false

/-- Rust `Robot::calculate_resource_score` (consumes one random draw). -/
def calculate_resource_score (m : Map) (x y : Nat) (is_target : CellType → Bool) (g : Rng) :
    Int × Rng :=
  let s1 : Int :=
    match m.get_cell x y with
    | some cell =>
        (if is_target cell.cell_type then 25 else 0) + (if !cell.explored then 5 else 0)
    | none => 0
  let s2 : Int := offsets5x5.foldl
    (fun (acc : Int) (d : Int × Int) =>
      if d.1 = 0 ∧ d.2 = 0 then acc
      else
        match castCellIndex m ((x : Int) + d.2) ((y : Int) + d.1) with
        | some cell =>
          let acc1 := if is_target cell.cell_type then
              acc + (8 - ((d.2.natAbs + d.1.natAbs : Nat) : Int)) else acc
          if !cell.explored then acc1 + 1 else acc1
        | none => acc)
    0
  let rg := genRange (-1) 1 g
  (s1 + s2 + rg.1, rg.2)

/-- Rust `Robot::choose_resource_direction`. -/
def choose_resource_direction (r : Robot) (m : Map) (others : List Robot)
    (is_target : CellType → Bool) (g : Rng) : Option Direction × Rng :=
  let res := [Direction.North, Direction.East, Direction.South, Direction.West].foldl
    (fun (acc : (Option Direction × Int) × Rng) dir =>
      match r.get_next_position dir m with
      | some (nx, ny) =>
        if is_valid_move m others nx ny then
          let sg := calculate_resource_score m nx ny is_target acc.2
          if sg.1 > acc.1.2 then ((some dir, sg.1), sg.2) else (acc.1, sg.2)
        else acc
      | none => acc)
    ((none, -1), g)
  (res.1.1, res.2)

/-- Swap two positions of a list (the Rust slice `swap`). -/
def swapList (l : List α) (i j : Nat) : List α :=
  match l[i]?, l[j]? with
  | some a, some b => (l.set i b).set j a
  | _, _ => l

/-- The in-place shuffle of `Robot::move_randomly`. -/
def shuffleDirections (g : Rng) : List Direction × Rng :=
  (List.range 4).foldl
    (fun (acc : List Direction × Rng) i =>
      let jg := genRangeNat 4 acc.2
      (swapList acc.1 i jg.1, jg.2))
    ([Direction.North, Direction.East, Direction.South, Direction.West], g)

/-- Rust `Robot::move_randomly`. -/
def Robot.move_randomly (r : Robot) (m : Map) (others : List Robot) (g : Rng) :
    Robot × Bool × Rng :=
  let dg := shuffleDirections g
  let res := dg.1.foldl
    (fun (acc : Robot × Bool) dir =>
      if acc.2 then acc else acc.1.move_in_direction dir m others)
    (r, false)
  (res.1, res.2, dg.2)

/-- The unexplored-neighbour count of `Robot::try_unstuck` (5-by-5 clamped
window, centre included). -/
def unstuckNeighborCount (m : Map) (x y : Nat) : Nat :=
  offsets5x5.countP (fun (d : Int × Int) =>
    match m.get_cell (clampToDim ((x : Int) + d.2) m.width) (clampToDim ((y : Int) + d.1) m.height) with
    | some c => !c.explored
    | none => false)

/-- One candidate evaluation of the `Robot::try_unstuck` scan. -/
def unstuckScanStep (m : Map) (others : List Robot) (rx ry : Nat)
    (offs : Nat → Nat → Int × Int) (radius angle : Nat) (acc : Option Pos × Int) :
    Option Pos × Int :=
  let d := offs radius angle
  let nx := clampToDim ((rx : Int) + d.1) m.width
  let ny := clampToDim ((ry : Int) + d.2) m.height
  match m.get_cell nx ny with
  | some cell =>
    if !(isObstacleCell cell.cell_type) && !(occupiedByActiveRobot others nx ny) then
      let score : Int := (if !cell.explored then 150 else 0)
        + 15 * (unstuckNeighborCount m nx ny : Int)
        + (((nx : Int) - (rx : Int)).natAbs + ((ny : Int) - (ry : Int)).natAbs : Nat)
      if score > acc.2 then (some (nx, ny), score) else acc
    else acc
  | none => acc

/-- The radius loop of the `Robot::try_unstuck` scan, with its early break
once a candidate scoring above 200 is held at the end of a radius ring. -/
def unstuckRadiusScan (m : Map) (others : List Robot) (rx ry : Nat)
    (offs : Nat → Nat → Int × Int) : List Nat → (Option Pos × Int) → Option Pos × Int
  | [], acc => acc
  | radius :: rest, acc =>
    let acc' := (List.range 16).foldl
      (fun a angle => unstuckScanStep m others rx ry offs radius angle a) acc
    if acc'.1.isSome ∧ acc'.2 > 200 then acc'
    else unstuckRadiusScan m others rx ry offs rest acc'

/-- The full candidate scan of `Robot::try_unstuck` (radii 8–25, 16 angular
samples per radius). -/
def unstuckScan (m : Map) (others : List Robot) (rx ry : Nat)
    (offs : Nat → Nat → Int × Int) : Option Pos × Int :=
  unstuckRadiusScan m others rx ry offs ((List.range 18).map (fun i => i + 8)) (none, -1)

/-- Rust `Robot::try_unstuck`: teleport to the best scanned candidate, paying
a saturating 3-energy cost and clearing the stuck counter; no candidate means
no change. -/
def Robot.try_unstuck (r : Robot) (m : Map) (others : List Robot)
    (offs : Nat → Nat → Int × Int) : Robot :=
  match (unstuckScan m others r.x r.y offs).1 with
  | some (nx, ny) =>
      { r with x := nx, y := ny, steps_since_last_find := 0, energy := r.energy - 3 }
  | none => r

/-- The move phase of `Robot::autonomous_explore` (collect, explore, pick a
direction by robot type, move or move randomly, stuck-counter bookkeeping). -/
def Robot.explorePhaseMove (r : Robot) (m : Map) (others : List Robot) (g : Rng) :
    Robot × Map × Rng :=
  let cm := r.collect_resource m
  let em := cm.1.explore cm.2.1
  let r2 := em.1
  let m2 := em.2.1
  let dirg : Option Direction × Rng :=
    match r2.robot_type with
    | RobotType.Explorer => (choose_explorer_direction r2 m2 others, g)
    | RobotType.EnergyCollector => choose_resource_direction r2 m2 others isEnergyCellType g
    | RobotType.MineralCollector => choose_resource_direction r2 m2 others isMineralCellType g
    | RobotType.Scientist => choose_resource_direction r2 m2 others isScienceCellType g
  match dirg.1 with
  | some dir =>
    let mv := r2.move_in_direction dir m2 others
    if mv.2 then
      if mv.1.found_something_at_current_position m2 then
        ({ mv.1 with steps_since_last_find := 0 }, m2, dirg.2)
      else ({ mv.1 with steps_since_last_find := mv.1.steps_since_last_find + 1 }, m2, dirg.2)
    else ({ mv.1 with steps_since_last_find := mv.1.steps_since_last_find + 1 }, m2, dirg.2)
  | none =>
    let mr := r2.move_randomly m2 others dirg.2
    if mr.2.1 then (mr.1, m2, mr.2.2)
    else ({ mr.1 with steps_since_last_find := mr.1.steps_since_last_find + 1 }, m2, mr.2.2)

/-- Rust `Robot::autonomous_explore`: transition to returning when the return
policy fires, otherwise run the move phase and then the unstuck scan exactly
when the stuck counter exceeds 5. -/
def Robot.autonomous_explore (r : Robot) (m : Map) (station_x station_y : Nat)
    (others : List Robot) (g : Rng) (offs : Nat → Nat → Int × Int) :
    Robot × Map × Rng :=
  if r.should_return_to_station then
    ({ r with state := RobotState.ReturningToStation,
              target_x := some station_x, target_y := some station_y }, m, g)
  else
    let ph := r.explorePhaseMove m others g
    if ph.1.steps_since_last_find > 5 then
      (ph.1.try_unstuck ph.2.1 others offs, ph.2.1, ph.2.2)
    else ph

/-! ## A-star pathfinding (src/robot.rs, `Robot::find_path`)

The Rust `BinaryHeap` is modelled as a list together with `popMin`, which
removes a node minimal in the heap order (lowest `f_cost`, ties broken by
lowest `h_cost`; the first such occurrence).  The `HashMap`s `came_from` and
`g_score` are association lists with replace-on-insert.  The loop is defined
by well-founded recursion on a lexicographic measure; the supporting measure
facts are stated as `def`s because the recursion needs them. -/

structure PathNode : Type where
  x : Nat
  y : Nat
  g_cost : Nat
  h_cost : Nat
  f_cost : Nat
deriving DecidableEq, Repr

/-- Rust `PathNode::new`: `f_cost` is `g_cost + h_cost`. -/
def PathNode.make (x y g_cost h_cost : Nat) : PathNode :=
  ⟨x, y, g_cost, h_cost, g_cost + h_cost⟩

/-- Rust `Robot::heuristic`: Manhattan distance. -/
def heuristic (x1 y1 x2 y2 : Nat) : Nat :=
  (((x1 : Int) - (x2 : Int)).natAbs + ((y1 : Int) - (y2 : Int)).natAbs : Nat)

/-- The heap priority of `PathNode` (reverse of the Rust `Ord`): `a` is at
least as urgent as `b`. -/
def nodeLE (a b : PathNode) : Bool :=
  decide (a.f_cost < b.f_cost) ||
    (decide (a.f_cost = b.f_cost) && decide (a.h_cost ≤ b.h_cost))

/-- Remove a most-urgent node (the `BinaryHeap` pop; the first minimal
occurrence under `nodeLE`). -/
def popMin : List PathNode → Option (PathNode × List PathNode)
  | [] => none
  | n :: t =>
    match popMin t with
    | none => some (n, [])
    | some (b, rest) => if nodeLE n b then some (n, t) else some (b, n :: rest)

def lookupA {α : Type} : List (Pos × α) → Pos → Option α
  | [], _ => none
  | (k, v) :: t, p => if k = p then some v else lookupA t p

def insertA {α : Type} : List (Pos × α) → Pos → α → List (Pos × α)
  | [], p, v => [(p, v)]
  | (k, w) :: t, p, v => if k = p then (p, v) :: t else (k, w) :: insertA t p v

/-- The A-star search state: open set, parent map, best-known costs. -/
structure AState : Type where
  open_set : List PathNode
  came_from : List (Pos × Pos)
  g_score : List (Pos × Nat)
deriving Repr

/-- The neighbour candidates of `find_path`, in source order (West, East,
North, South); a `wrapping_sub` past zero yields an index beyond every grid,
filtered exactly like the source's bounds check, hence `none`. -/
def neighborOffsets (x y : Nat) : List (Option Pos) :=
  [if x = 0 then none else some (x - 1, y),
   some (x + 1, y),
   if y = 0 then none else some (x, y - 1),
   some (x, y + 1)]

def U32_MAX : Nat := 4294967295

/-- One neighbour relaxation step of the `find_path` loop body. -/
def relaxNeighbor (m : Map) (robots : List Robot) (goal : Pos) (cur : Pos)
    (st : AState) (n : Option Pos) : AState :=
  match n with
  | none => st
  | some (nx, ny) =>
    if nx ≥ m.width ∨ ny ≥ m.height then st
    else if is_valid_move m robots nx ny = false then st
    else
      let tentative_g_score := (match lookupA st.g_score cur with
        | some v => v
        | none => U32_MAX) + 1
      let current_g_score := (match lookupA st.g_score (nx, ny) with
        | some v => v
        | none => U32_MAX)
      if tentative_g_score < current_g_score then
        { open_set := st.open_set ++
            [PathNode.make nx ny tentative_g_score (heuristic nx ny goal.1 goal.2)],
          came_from := insertA st.came_from (nx, ny) cur,
          g_score := insertA st.g_score (nx, ny) tentative_g_score }
      else st

/-- All four neighbour relaxations of one loop iteration. -/
def relaxNeighbors (m : Map) (robots : List Robot) (goal : Pos) (cur : Pos)
    (st : AState) : AState :=
  (neighborOffsets cur.1 cur.2).foldl (relaxNeighbor m robots goal cur) st

/-- The parent chain of `reconstruct_path` before the final reverse, fueled. -/
def reconstructAux (came : List (Pos × Pos)) : Nat → Pos → List Pos
  | 0, cur => [cur]
  | fuel + 1, cur =>
    match lookupA came cur with
    | none => [cur]
    | some p => cur :: reconstructAux came fuel p

def sumG (g : List (Pos × Nat)) : Nat := (g.map (fun e => e.2)).sum

/-- Rust `Robot::reconstruct_path`; the fuel `sumG g + 1` provably exceeds the
parent-chain length in every reachable search state. -/
def reconstruct_path (came : List (Pos × Pos)) (g : List (Pos × Nat)) (cur : Pos) :
    List Pos :=
  (reconstructAux came (sumG g + 1) cur).reverse

def allPositions (m : Map) : List Pos :=
  (List.range m.height).flatMap (fun y => (List.range m.width).map (fun x => (x, y)))

/-- In-bounds positions without a best-known cost yet (termination measure). -/
def gMissing (m : Map) (g : List (Pos × Nat)) : Nat :=
  (allPositions m).countP (fun p => (lookupA g p).isNone)

def lookupA_insertA_self {α : Type} (l : List (Pos × α)) (k : Pos) (v : α) :
    lookupA (insertA l k v) k = some v := by
  induction l with
  | nil => simp [insertA, lookupA]
  | cons h t ih =>
    obtain ⟨k0, v0⟩ := h
    by_cases hk : k0 = k
    · simp [insertA, lookupA, hk]
    · simp [insertA, lookupA, hk, ih]

def lookupA_insertA_ne {α : Type} (l : List (Pos × α)) (k k' : Pos) (v : α)
    (h : k' ≠ k) : lookupA (insertA l k v) k' = lookupA l k' := by
  induction l with
  | nil => simp [insertA, lookupA, Ne.symm h]
  | cons hd t ih =>
    obtain ⟨k0, v0⟩ := hd
    by_cases hk : k0 = k
    · subst hk
      simp [insertA, lookupA, Ne.symm h]
    · simp only [insertA, if_neg hk, lookupA]
      by_cases hk' : k0 = k'
      · simp [hk']
      · simp [hk', ih]

def sumG_cons (k : Pos) (v : Nat) (l : List (Pos × Nat)) :
    sumG ((k, v) :: l) = v + sumG l := by
  simp [sumG]

def sumG_insertA (l : List (Pos × Nat)) (k : Pos) (v t : Nat)
    (h : lookupA l k = some v) : sumG (insertA l k t) + v = sumG l + t := by
  induction l with
  | nil => simp [lookupA] at h
  | cons hd tl ih =>
    obtain ⟨k0, v0⟩ := hd
    by_cases hk : k0 = k
    · subst hk
      have hv : v0 = v := by simpa [lookupA] using h
      have hins : insertA ((k0, v0) :: tl) k0 t = (k0, t) :: tl := by
        simp [insertA]
      rw [hins, sumG_cons, sumG_cons]
      omega
    · rw [lookupA, if_neg hk] at h
      have hih := ih h
      have hins : insertA ((k0, v0) :: tl) k t = (k0, v0) :: insertA tl k t := by
        simp [insertA, hk]
      rw [hins, sumG_cons, sumG_cons]
      omega

def lookupA_le_sumG (l : List (Pos × Nat)) (k : Pos) (v : Nat)
    (h : lookupA l k = some v) : v ≤ sumG l := by
  induction l with
  | nil => simp [lookupA] at h
  | cons hd tl ih =>
    obtain ⟨k0, v0⟩ := hd
    by_cases hk : k0 = k
    · have hv : v0 = v := by
        rw [lookupA, if_pos hk] at h
        exact Option.some.inj h
      subst hv
      rw [sumG_cons]
      omega
    · rw [lookupA, if_neg hk] at h
      have hih := ih h
      rw [sumG_cons]
      omega

def mem_allPositions (m : Map) (x y : Nat) (hx : x < m.width) (hy : y < m.height) :
    ((x, y) : Pos) ∈ allPositions m := by
  simp only [allPositions, List.mem_flatMap, List.mem_map, List.mem_range]
  exact ⟨y, hy, x, hx, rfl⟩

def countP_lt_of_witness (l : List Pos) (p q : Pos → Bool)
    (hmono : ∀ a, q a = true → p a = true) (a : Pos) (ha : a ∈ l)
    (hpa : p a = true) (hqa : q a = false) : l.countP q < l.countP p := by
  induction l with
  | nil => simp at ha
  | cons b t ih =>
    rcases List.mem_cons.mp ha with hb | hb
    · subst hb
      have hq : q a = false := hqa
      have hcount : t.countP q ≤ t.countP p := List.countP_mono_left (by
        intro x _ hx
        exact hmono x hx)
      simp [List.countP_cons, hpa, hq]
      omega
    · have := ih hb
      simp only [List.countP_cons]
      by_cases hqb : q b = true
      · have hpb := hmono b hqb
        simp [hqb, hpb]
        omega
      · simp only [Bool.not_eq_true] at hqb
        simp [hqb]
        split
        all_goals omega

def gMissing_insertA_old (m : Map) (g : List (Pos × Nat)) (k : Pos) (v t : Nat)
    (hk : lookupA g k = some v) : gMissing m (insertA g k t) = gMissing m g := by
  unfold gMissing
  apply List.countP_congr
  intro p _
  by_cases hp : p = k
  · subst hp
    rw [lookupA_insertA_self, hk]
    simp
  · rw [lookupA_insertA_ne g k p t hp]

def gMissing_insertA_new (m : Map) (g : List (Pos × Nat)) (k : Pos) (t : Nat)
    (hk : lookupA g k = none) (hx : k.1 < m.width) (hy : k.2 < m.height) :
    gMissing m (insertA g k t) < gMissing m g := by
  unfold gMissing
  refine countP_lt_of_witness (allPositions m)
    (fun p => (lookupA g p).isNone) (fun p => (lookupA (insertA g k t) p).isNone)
    ?_ k ?_ ?_ ?_
  · intro a hq
    have hq' : (lookupA (insertA g k t) a).isNone = true := hq
    show (lookupA g a).isNone = true
    by_cases hp : a = k
    · subst hp
      rw [lookupA_insertA_self] at hq'
      simp at hq'
    · rw [lookupA_insertA_ne g k a t hp] at hq'
      exact hq'
  · obtain ⟨kx, ky⟩ := k
    exact mem_allPositions m kx ky hx hy
  · show (lookupA g k).isNone = true
    simp [hk]
  · show (lookupA (insertA g k t) k).isNone = false
    rw [lookupA_insertA_self]
    simp

/-- The lexicographic decrease contributed by one relaxation step. -/
def relaxNeighbor_dec (m : Map) (robots : List Robot) (goal cur : Pos)
    (st : AState) (n : Option Pos) :
    relaxNeighbor m robots goal cur st n = st ∨
    gMissing m (relaxNeighbor m robots goal cur st n).g_score < gMissing m st.g_score ∨
    (gMissing m (relaxNeighbor m robots goal cur st n).g_score = gMissing m st.g_score ∧
      sumG (relaxNeighbor m robots goal cur st n).g_score < sumG st.g_score) := by
  cases n with
  | none => exact Or.inl rfl
  | some p =>
    obtain ⟨nx, ny⟩ := p
    simp only [relaxNeighbor]
    split
    · exact Or.inl rfl
    next hb =>
      split
      · exact Or.inl rfl
      next hv =>
        have hb2 : nx < m.width ∧ ny < m.height := by
          constructor
          all_goals omega
        cases hcur : lookupA st.g_score (nx, ny) with
        | none =>
          simp only [hcur]
          split
          next hlt =>
            refine Or.inr (Or.inl ?_)
            exact gMissing_insertA_new m st.g_score (nx, ny) _ hcur hb2.1 hb2.2
          next hlt => exact Or.inl rfl
        | some v =>
          simp only [hcur]
          split
          next hlt =>
            refine Or.inr (Or.inr ⟨?_, ?_⟩)
            · exact gMissing_insertA_old m st.g_score (nx, ny) v
                ((match lookupA st.g_score cur with
                  | some w => w
                  | none => U32_MAX) + 1) hcur
            · show sumG (insertA st.g_score (nx, ny)
                  ((match lookupA st.g_score cur with
                    | some w => w
                    | none => U32_MAX) + 1)) < sumG st.g_score
              have hs := sumG_insertA st.g_score (nx, ny) v
                ((match lookupA st.g_score cur with
                  | some w => w
                  | none => U32_MAX) + 1) hcur
              omega
          next hlt => exact Or.inl rfl

/-- The lexicographic decrease of the full relaxation fold. -/
def relaxFold_dec (m : Map) (robots : List Robot) (goal cur : Pos) :
    ∀ (ns : List (Option Pos)) (st : AState),
    ns.foldl (relaxNeighbor m robots goal cur) st = st ∨
    gMissing m (ns.foldl (relaxNeighbor m robots goal cur) st).g_score < gMissing m st.g_score ∨
    (gMissing m (ns.foldl (relaxNeighbor m robots goal cur) st).g_score = gMissing m st.g_score ∧
      sumG (ns.foldl (relaxNeighbor m robots goal cur) st).g_score < sumG st.g_score) := by
  intro ns
  induction ns with
  | nil => intro st; exact Or.inl rfl
  | cons o rest ih =>
    intro st
    simp only [List.foldl_cons]
    rcases relaxNeighbor_dec m robots goal cur st o with h1 | h1 | h1
    · rw [h1]
      exact ih st
    · rcases ih (relaxNeighbor m robots goal cur st o) with h2 | h2 | h2
      · rw [h2]
        exact Or.inr (Or.inl h1)
      · exact Or.inr (Or.inl (lt_trans h2 h1))
      · exact Or.inr (Or.inl (h2.1 ▸ h1))
    · rcases ih (relaxNeighbor m robots goal cur st o) with h2 | h2 | h2
      · rw [h2]
        exact Or.inr (Or.inr h1)
      · exact Or.inr (Or.inl (h1.1 ▸ h2))
      · exact Or.inr (Or.inr ⟨h2.1.trans h1.1, lt_trans h2.2 h1.2⟩)

def popMin_ne_none : ∀ (n : PathNode) (t : List PathNode), popMin (n :: t) ≠ none := by
  intro n t h
  simp only [popMin] at h
  cases hp : popMin t with
  | none =>
    rw [hp] at h
    simp at h
  | some pr =>
    obtain ⟨b, rest⟩ := pr
    rw [hp] at h
    by_cases hle : nodeLE n b = true
    · simp [hle] at h
    · simp [hle] at h

def popMin_perm : ∀ (l : List PathNode) (c : PathNode) (rest : List PathNode),
    popMin l = some (c, rest) → (c :: rest).Perm l := by
  intro l
  induction l with
  | nil => intro c rest h; simp [popMin] at h
  | cons n t ih =>
    intro c rest h
    simp only [popMin] at h
    cases hp : popMin t with
    | none =>
      rw [hp] at h
      have ht : t = [] := by
        cases t with
        | nil => rfl
        | cons a b => exact absurd hp (popMin_ne_none a b)
      simp only [Option.some.injEq, Prod.mk.injEq] at h
      obtain ⟨rfl, rfl⟩ := h
      subst ht
      exact List.Perm.refl _
    | some pr =>
      obtain ⟨b, rest'⟩ := pr
      rw [hp] at h
      by_cases hle : nodeLE n b = true
      · simp only [hle, if_true, Option.some.injEq, Prod.mk.injEq] at h
        obtain ⟨rfl, rfl⟩ := h
        exact List.Perm.refl _
      · simp only [hle, if_false, Bool.false_eq_true, Option.some.injEq, Prod.mk.injEq] at h
        obtain ⟨rfl, rfl⟩ := h
        have h1 : (b :: n :: rest').Perm (n :: b :: rest') := List.Perm.swap n b rest'
        have h2 : (n :: b :: rest').Perm (n :: t) := List.Perm.cons n (ih b rest' hp)
        exact h1.trans h2

def popMin_length (l : List PathNode) (c : PathNode) (rest : List PathNode)
    (h : popMin l = some (c, rest)) : rest.length + 1 = l.length := by
  have := (popMin_perm l c rest h).length_eq
  simpa using this

/-- Rust `Robot::find_path` main loop (the `while let Some(current) =
open_set.pop()` loop). -/
def astarLoop (m : Map) (robots : List Robot) (goal : Pos) (st : AState) :
    Option (List Pos) :=
  match hpop : popMin st.open_set with
  | none => none
  | some (c, rest) =>
    if (c.x, c.y) = goal then
      some (reconstruct_path st.came_from st.g_score (c.x, c.y))
    else
      astarLoop m robots goal
        (relaxNeighbors m robots goal (c.x, c.y) { st with open_set := rest })
termination_by (gMissing m st.g_score, sumG st.g_score, st.open_set.length)
decreasing_by
  rcases relaxFold_dec m robots goal (c.x, c.y) (neighborOffsets c.x c.y)
      { st with open_set := rest } with h | h | h
  · rw [relaxNeighbors, h]
    refine Prod.Lex.right _ (Prod.Lex.right _ ?_)
    have hlen := popMin_length st.open_set c rest hpop
    show rest.length < st.open_set.length
    omega
  · rw [relaxNeighbors]
    exact Prod.Lex.left _ _ h
  · rw [relaxNeighbors, h.1]
    exact Prod.Lex.right _ (Prod.Lex.left _ _ h.2)

/-- Rust `Robot::find_path` (the receiver is unused by the source). -/
def find_path (m : Map) (robots : List Robot) (start_x start_y goal_x goal_y : Nat) :
    Option (List Pos) :=
  let start_node := PathNode.make start_x start_y 0 (heuristic start_x start_y goal_x goal_y)
  astarLoop m robots (goal_x, goal_y)
    ⟨[start_node], [], [((start_x, start_y), 0)]⟩

/-! ## Spec-side notions used to state the claims -/



/-- Two grid positions are 4-directionally adjacent. -/
def adjacentPos (a b : Pos) : Prop :=
  (b.1 = a.1 + 1 ∧ b.2 = a.2) ∨ (a.1 = b.1 + 1 ∧ b.2 = a.2) ∨
  (b.2 = a.2 + 1 ∧ b.1 = a.1) ∨ (a.2 = b.2 + 1 ∧ b.1 = a.1)

instance (a b : Pos) : Decidable (adjacentPos a b) := by
  unfold adjacentPos
  infer_instance

/-- The cell one step in a given direction, when one exists in the Nat grid. -/
def dirTarget (p : Pos) (d : Direction) : Option Pos :=
  match d with
  | Direction.North => if p.2 = 0 then none else some (p.1, p.2 - 1)
  | Direction.East => some (p.1 + 1, p.2)
  | Direction.South => some (p.1, p.2 + 1)
  | Direction.West => if p.1 = 0 then none else some (p.1 - 1, p.2)

/-- A cell that a robot may enter: in bounds, not an obstacle, not occupied
by another robot with positive energy (the `is_valid_move` predicate). -/
def legalCell (m : Map) (robots : List Robot) (p : Pos) : Prop :=
  is_valid_move m robots p.1 p.2 = true

/-- One step of a path: a 4-adjacent move onto a legal cell. -/
def pathStep (m : Map) (robots : List Robot) (a b : Pos) : Prop :=
  adjacentPos a b ∧ legalCell m robots b

/-- Reachability in exactly `n` steps of 4-adjacent moves onto legal cells. -/
inductive ReachN (m : Map) (robots : List Robot) : Pos → Nat → Pos → Prop where
  | refl (p : Pos) : ReachN m robots p 0 p
  | step {a b c : Pos} {n : Nat} (hadj : adjacentPos a b) (hleg : legalCell m robots b)
      (htail : ReachN m robots b n c) : ReachN m robots a (n + 1) c

/-- A path as the claim describes one, except that the start cell's own
legality is not required: a sequence of 4-adjacent positions from `start` to
`goal` in which every position after the first is legal. -/
def CodePath (m : Map) (robots : List Robot) (start goal : Pos) (p : List Pos) : Prop :=
  p.head? = some start ∧ p.getLast? = some goal ∧ List.Chain' (pathStep m robots) p

/-- The search-state invariant of the A-star loop, except the frontier
property. -/
structure BaseInv (m : Map) (robots : List Robot) (start goal : Pos) (st : AState) : Prop where
  open_g : ∀ e ∈ st.open_set, ∃ v, lookupA st.g_score (e.x, e.y) = some v ∧ v ≤ e.g_cost
  open_h : ∀ e ∈ st.open_set,
    e.h_cost = heuristic e.x e.y goal.1 goal.2 ∧ e.f_cost = e.g_cost + e.h_cost
  g_start : lookupA st.g_score start = some 0
  g_bound : ∀ k v, lookupA st.g_score k = some v → v < U32_MAX
  came_valid : ∀ k p, lookupA st.came_from k = some p →
    adjacentPos p k ∧ legalCell m robots k
  came_g : ∀ k p, lookupA st.came_from k = some p →
    ∃ vk vp, lookupA st.g_score k = some vk ∧ lookupA st.g_score p = some vp ∧ vp < vk
  g_came : ∀ k v, lookupA st.g_score k = some v →
    k = start ∨ ∃ p, lookupA st.came_from k = some p

/-- The frontier property at one triple: if `a` is settled within cost `j`,
then either its neighbour `b` is settled within `j + 1` or an entry for `a`
of cost at most `j` is still queued. -/
def frontierAt (st : AState) (j : Nat) (a b : Pos) : Prop :=
  (∃ v, lookupA st.g_score a = some v ∧ v ≤ j) →
  (∃ w, lookupA st.g_score b = some w ∧ w ≤ j + 1) ∨
  (∃ e ∈ st.open_set, (e.x, e.y) = a ∧ e.g_cost ≤ j)

/-- The frontier invariant over all adjacent legal pairs (below the `u32`
ceiling, above which the source's `u32::MAX` sentinel stops relaxations). -/
def FrontierInv (m : Map) (robots : List Robot) (st : AState) : Prop :=
  ∀ j, j + 1 < U32_MAX → ∀ a b, adjacentPos a b → legalCell m robots b →
    frontierAt st j a b

/-- What one neighbour relaxation can do to the search state. -/
def RelaxEffect (m : Map) (robots : List Robot) (goal cur : Pos) (st st2 : AState) : Prop :=
  st2 = st ∨
  ∃ nx ny v,
    adjacentPos cur (nx, ny) ∧
    legalCell m robots (nx, ny) ∧
    lookupA st.g_score cur = some v ∧
    (∀ w, lookupA st.g_score (nx, ny) = some w → v + 1 < w) ∧
    (lookupA st.g_score (nx, ny) = none → v + 1 < U32_MAX) ∧
    st2 = { open_set := st.open_set ++
              [PathNode.make nx ny (v + 1) (heuristic nx ny goal.1 goal.2)],
            came_from := insertA st.came_from (nx, ny) cur,
            g_score := insertA st.g_score (nx, ny) (v + 1) }

/-- Spec-side predicate: a known-map entry holding a positive-amount Energy or
Mineral cell, or a SciencePoint cell. -/
def valuableEntry : Pos × CellType → Bool := fun e =>
  match e.2 with
  | CellType.Energy amount => decide (0 < amount)
  | CellType.Mineral amount => decide (0 < amount)
  | CellType.SciencePoint => true
  | _ => false

/-- Spec-side predicate: a known-map entry reporting a positive-amount energy
source. -/
def energySourceEntry : Pos × CellType → Bool := fun e =>
  match e.2 with
  | CellType.Energy amount => decide (0 < amount)
  | _ => false

/-- Spec-side predicate: a known-map entry reporting a positive-amount mineral
source. -/
def mineralSourceEntry : Pos × CellType → Bool := fun e =>
  match e.2 with
  | CellType.Mineral amount => decide (0 < amount)
  | _ => false

/-- Spec-side predicate: a known-map entry reporting a science source. -/
def scienceSourceEntry : Pos × CellType → Bool := fun e =>
  match e.2 with
  | CellType.SciencePoint => true
  | _ => false

/-- Spec-side predicate: a known-map entry reporting an (unexplored) empty
cell. -/
def unexploredEntry : Pos × CellType → Bool := fun e =>
  match e.2 with
  | CellType.Empty => true
  | _ => false

/-- Spec-side predicate: a robot of the given type. -/
def hasRobotType (ty : RobotType) : Robot → Bool := fun r => decide (r.robot_type = ty)

/-! ## Theorems: helper lemmas -/

theorem listModify_getElem_self (f : α → α) (n : Nat) (l : List α) :
    (listModify f n l)[n]? = (l[n]?).map f := by
  induction l generalizing n with
  | nil => simp [listModify]
  | cons a t ih =>
    cases n with
    | zero => simp [listModify]
    | succ k => simpa [listModify] using ih k

theorem listModify_getElem_ne (f : α → α) (n k : Nat) (l : List α) (h : k ≠ n) :
    (listModify f n l)[k]? = l[k]? := by
  induction l generalizing n k with
  | nil => simp [listModify]
  | cons a t ih =>
    cases n with
    | zero =>
      cases k with
      | zero => exact absurd rfl h
      | succ j => simp [listModify]
    | succ n' =>
      cases k with
      | zero => simp [listModify]
      | succ j =>
        simp only [listModify, List.getElem?_cons_succ]
        exact ih n' j (fun hc => h (by simp [hc]))

theorem Map.get_cell_modifyCell_self (m : Map) (x y : Nat) (f : Cell → Cell) :
    (m.modifyCell x y f).get_cell x y = (m.get_cell x y).map f := by
  simp only [Map.get_cell, Map.modifyCell, Map.is_valid_position]
  split
  · rw [listModify_getElem_self]
    cases hr : m.cells[y]? with
    | none => simp
    | some row => simp [listModify_getElem_self]
  · simp

theorem valuableCellCount_go (entries : List (Pos × CellType)) (acc : Nat) :
    entries.foldl
      (fun acc e =>
        match e.2 with
        | CellType.Energy amount => if amount > 0 then acc + 1 else acc
        | CellType.Mineral amount => if amount > 0 then acc + 1 else acc
        | CellType.SciencePoint => acc + 1
        | _ => acc)
      acc =
    acc + entries.countP valuableEntry := by
  induction entries generalizing acc with
  | nil => simp
  | cons h t ih =>
    obtain ⟨p, c⟩ := h
    cases c with
    | Energy a =>
      simp only [List.foldl_cons, List.countP_cons, ih, valuableEntry]
      by_cases ha : 0 < a
      all_goals simp [ha, Nat.add_assoc, Nat.add_comm, Nat.add_left_comm]
    | Mineral a =>
      simp only [List.foldl_cons, List.countP_cons, ih, valuableEntry]
      by_cases ha : 0 < a
      all_goals simp [ha, Nat.add_assoc, Nat.add_comm, Nat.add_left_comm]
    | SciencePoint =>
      simp only [List.foldl_cons, List.countP_cons, ih, valuableEntry]
      simp [Nat.add_assoc, Nat.add_comm, Nat.add_left_comm]
    | Empty =>
      simp only [List.foldl_cons, List.countP_cons, ih, valuableEntry]
      simp
    | Obstacle =>
      simp only [List.foldl_cons, List.countP_cons, ih, valuableEntry]
      simp

theorem valuableCellCount_eq_countP (entries : List (Pos × CellType)) :
    valuableCellCount entries = entries.countP valuableEntry := by
  simpa using valuableCellCount_go entries 0

/-! ## Claim theorems -/

/-- C2: the triple returned by `unload_payload` plus the robot's post-call
resources equals its pre-call resources exactly; the returned energy is the
pre-call energy above the baseline 100, the post-call energy is
`min (pre-call energy) 100`, and post-call minerals and science points are 0. -/
theorem claim_C2_unload_payload (r : Robot) :
    (r.unload_payload).1.1 + (r.unload_payload).2.energy = r.energy ∧
    (r.unload_payload).1.2.1 + (r.unload_payload).2.minerals = r.minerals ∧
    (r.unload_payload).1.2.2 + (r.unload_payload).2.science_points = r.science_points ∧
    (r.unload_payload).1.1 = r.energy - 100 ∧
    (r.unload_payload).2.energy = min r.energy 100 ∧
    (r.unload_payload).2.minerals = 0 ∧
    (r.unload_payload).2.science_points = 0 := by
  have he : r.unload_payload =
      ((r.energy - 100, r.minerals, r.science_points),
       { r with energy := r.energy - (r.energy - 100), minerals := 0, science_points := 0 }) := rfl
  rw [he]
  refine ⟨?_, by simp, by simp, by simp, ?_, by simp, by simp⟩
  · simp only []
    omega
  · simp only [min_def]
    split
    all_goals omega

/-- C3: `should_return_to_station` is true exactly when energy is at most 20,
or the per-type trigger fires: Explorer at energy ≤ 25 or more than 30 pending
updates; EnergyCollector at energy ≤ 25 or energy above 100 + 70;
MineralCollector at more than 35 minerals or energy ≤ 25; Scientist at more
than 6 science points or energy ≤ 25. -/
theorem claim_C3_should_return_to_station (r : Robot) :
    r.should_return_to_station = true ↔
      (r.energy ≤ 20 ∨
        match r.robot_type with
        | RobotType.Explorer => r.energy ≤ 25 ∨ r.pending_exploration_updates.length > 30
        | RobotType.EnergyCollector => r.energy ≤ 25 ∨ r.energy > 100 + 70
        | RobotType.MineralCollector => r.minerals > 35 ∨ r.energy ≤ 25
        | RobotType.Scientist => r.science_points > 6 ∨ r.energy ≤ 25) := by
  cases h : r.robot_type <;>
    simp [Robot.should_return_to_station, h, INITIAL_ROBOT_ENERGY] <;> omega

/-- C4: `should_create_robot` is true exactly when the robot count is below 12,
minerals reach the 50 + 100 cost-plus-buffer, energy reaches the 100 + 300
cost-plus-buffer, and at least 2 known-map entries hold a positive-amount
Energy or Mineral cell or a SciencePoint cell. -/
theorem claim_C4_should_create_robot (st : Station) :
    st.should_create_robot = true ↔
      (st.robots.length < 12 ∧
       st.minerals ≥ 50 + 100 ∧
       st.energy ≥ 100 + 300 ∧
       2 ≤ st.known_map.countP valuableEntry) := by
  simp only [Station.should_create_robot, ROBOT_MINERAL_COST, ROBOT_ENERGY_COST,
    valuableCellCount_eq_countP]
  split_ifs with h1 h2 h3 <;> simp_all <;> omega

/-- C6: a robot with zero energy at its turn in the respawn pass is relocated
to the station, set `AtStation` with stuck counter 0, and its energy becomes
the baseline 100 (with the station charged 100) exactly when the station's
energy was at least 100 beforehand; otherwise its energy remains 0. -/
theorem claim_C6_respawn (sx sy se : Nat) (r : Robot) (h : r.energy = 0) :
    (respawnDeadRobot sx sy r se).1.x = sx ∧
    (respawnDeadRobot sx sy r se).1.y = sy ∧
    (respawnDeadRobot sx sy r se).1.state = RobotState.AtStation ∧
    (respawnDeadRobot sx sy r se).1.steps_since_last_find = 0 ∧
    (((respawnDeadRobot sx sy r se).1.energy = 100 ∧
      (respawnDeadRobot sx sy r se).2 = se - 100) ↔ se ≥ 100) ∧
    (se < 100 → (respawnDeadRobot sx sy r se).1.energy = 0) := by
  by_cases hse : 100 ≤ se
  · have he : respawnDeadRobot sx sy r se =
        ({ r with x := sx, y := sy, state := RobotState.AtStation,
                  steps_since_last_find := 0, energy := 100 }, se - 100) := by
      simp [respawnDeadRobot, h, hse, INITIAL_ROBOT_ENERGY]
    rw [he]
    refine ⟨rfl, rfl, rfl, rfl, by simp [hse], by omega⟩
  · have he : respawnDeadRobot sx sy r se =
        ({ r with x := sx, y := sy, state := RobotState.AtStation,
                  steps_since_last_find := 0 }, se) := by
      simp [respawnDeadRobot, h, hse, INITIAL_ROBOT_ENERGY]
    rw [he]
    refine ⟨rfl, rfl, rfl, rfl, ?_, fun _ => h⟩
    simp only [h]
    constructor
    · rintro ⟨h100, -⟩
      omega
    · intro hc
      omega

/-- Witness for C6 at a concrete dead robot and station energy 150. -/
theorem claim_C6_respawn_witness :
    let r0 : Robot := ⟨3, 4, 0, 7, 2, [], RobotType.Explorer, RobotState.Exploring, none, none, 9⟩
    (respawnDeadRobot 1 2 r0 150).1.x = 1 ∧
    (respawnDeadRobot 1 2 r0 150).1.y = 2 ∧
    (respawnDeadRobot 1 2 r0 150).1.state = RobotState.AtStation ∧
    (respawnDeadRobot 1 2 r0 150).1.steps_since_last_find = 0 ∧
    (((respawnDeadRobot 1 2 r0 150).1.energy = 100 ∧
      (respawnDeadRobot 1 2 r0 150).2 = 150 - 100) ↔ (150 : Nat) ≥ 100) ∧
    ((150 : Nat) < 100 → (respawnDeadRobot 1 2 r0 150).1.energy = 0) :=
  claim_C6_respawn 1 2 150 _ rfl

/-- C9: extraction of an in-bounds Energy, Mineral, or SciencePoint cell sets
that cell's type to Empty and credits the robot (energy plus the amount,
minerals plus the amount, or exactly one science point); on an Empty or
Obstacle cell, or out of bounds, both the map and the robot are unchanged and
the operation reports failure. -/
theorem claim_C9_extraction (r : Robot) (m : Map) :
    (m.get_cell r.x r.y = none → r.collect_resource m = (r, m, false)) ∧
    (∀ c, m.get_cell r.x r.y = some c →
      (∀ a, c.cell_type = CellType.Energy a →
        (r.collect_resource m).1 = { r with energy := r.energy + a } ∧
        (r.collect_resource m).2.2 = true ∧
        ((r.collect_resource m).2.1).get_cell r.x r.y =
          some { c with cell_type := CellType.Empty }) ∧
      (∀ a, c.cell_type = CellType.Mineral a →
        (r.collect_resource m).1 = { r with minerals := r.minerals + a } ∧
        (r.collect_resource m).2.2 = true ∧
        ((r.collect_resource m).2.1).get_cell r.x r.y =
          some { c with cell_type := CellType.Empty }) ∧
      (c.cell_type = CellType.SciencePoint →
        (r.collect_resource m).1 = { r with science_points := r.science_points + 1 } ∧
        (r.collect_resource m).2.2 = true ∧
        ((r.collect_resource m).2.1).get_cell r.x r.y =
          some { c with cell_type := CellType.Empty }) ∧
      ((c.cell_type = CellType.Empty ∨ c.cell_type = CellType.Obstacle) →
        r.collect_resource m = (r, m, false))) := by
  constructor
  · intro hnone
    simp [Robot.collect_resource, Map.collect_resource, hnone]
  · intro c hc
    refine ⟨?_, ?_, ?_, ?_⟩
    · intro a ha
      simp [Robot.collect_resource, Map.collect_resource, hc, ha,
        Map.get_cell_modifyCell_self]
    · intro a ha
      simp [Robot.collect_resource, Map.collect_resource, hc, ha,
        Map.get_cell_modifyCell_self]
    · intro ha
      simp [Robot.collect_resource, Map.collect_resource, hc, ha,
        Map.get_cell_modifyCell_self]
    · rintro (ha | ha) <;>
        simp [Robot.collect_resource, Map.collect_resource, hc, ha]

/-- Witness for C9 on a 1-by-1 map holding an Energy(7) cell under the robot. -/
theorem claim_C9_extraction_witness :
    let r0 : Robot := ⟨0, 0, 50, 3, 4, [], RobotType.Explorer, RobotState.Exploring, none, none, 0⟩
    let m0 : Map := ⟨1, 1, [[⟨CellType.Energy 7, false⟩]]⟩
    (∀ a, (⟨CellType.Energy 7, false⟩ : Cell).cell_type = CellType.Energy a →
        (r0.collect_resource m0).1 = { r0 with energy := r0.energy + a } ∧
        (r0.collect_resource m0).2.2 = true ∧
        ((r0.collect_resource m0).2.1).get_cell 0 0 =
          some { (⟨CellType.Energy 7, false⟩ : Cell) with cell_type := CellType.Empty }) := by
  intro r0 m0
  exact ((claim_C9_extraction r0 m0).2 ⟨CellType.Energy 7, false⟩ (by decide)).1

/-- C7: `move_in_direction` either succeeds, moving the robot to the
4-adjacent legal target at a saturating cost of exactly 1 energy and leaving
all other robot fields unchanged, or fails with the robot unchanged because
the target is out of bounds, an Obstacle, or occupied by another robot with
positive energy. -/
theorem claim_C7_move_in_direction (r : Robot) (dir : Direction) (m : Map)
    (others : List Robot) (hwf : m.WF) :
    ((r.move_in_direction dir m others).2 = true →
      ∃ t, dirTarget (r.x, r.y) dir = some t ∧
        adjacentPos (r.x, r.y) t ∧
        is_valid_move m others t.1 t.2 = true ∧
        (r.move_in_direction dir m others).1 =
          { r with x := t.1, y := t.2, energy := r.energy - 1 }) ∧
    ((r.move_in_direction dir m others).2 = false →
      (r.move_in_direction dir m others).1 = r ∧
      (dirTarget (r.x, r.y) dir = none ∨
       ∃ t, dirTarget (r.x, r.y) dir = some t ∧
         (¬ (t.1 < m.width ∧ t.2 < m.height) ∨
          (∃ c, m.get_cell t.1 t.2 = some c ∧ c.cell_type = CellType.Obstacle) ∨
          occupiedByActiveRobot others t.1 t.2 = true))) := by
  obtain ⟨hlen, hrow⟩ := hwf
  have hcell : ∀ x y, x < m.width → y < m.height → ∃ c, m.get_cell x y = some c := by
    intro x y hx hy
    have hy' : y < m.cells.length := by rw [hlen]; exact hy
    obtain ⟨row, hrowy⟩ := Option.isSome_iff_exists.mp (by
      simpa using List.getElem?_eq_getElem hy' ▸ Option.isSome_some)
    have hx' : x < row.length := by
      rw [hrow row (by exact List.getElem?_mem hrowy)]
      exact hx
    refine ⟨row[x], ?_⟩
    simp [Map.get_cell, Map.is_valid_position, hx, hy, hrowy, List.getElem?_eq_getElem hx']
  constructor
  · intro hs
    cases dir with
    | North =>
      by_cases hy : r.y = 0
      · simp [Robot.move_in_direction, Robot.get_next_position, hy] at hs
      · refine ⟨(r.x, r.y - 1), by simp [dirTarget, hy], Or.inr (Or.inr (Or.inr ⟨by omega, rfl⟩)), ?_⟩
        simp only [Robot.move_in_direction, Robot.get_next_position, if_neg hy] at hs ⊢
        split at hs
        · next hv => simp_all
        · simp_all
    | East =>
      by_cases hx : r.x ≥ m.width - 1
      · simp [Robot.move_in_direction, Robot.get_next_position, hx] at hs
      · refine ⟨(r.x + 1, r.y), by simp [dirTarget], Or.inl ⟨rfl, rfl⟩, ?_⟩
        simp only [Robot.move_in_direction, Robot.get_next_position, if_neg hx] at hs ⊢
        split at hs
        · next hv => simp_all
        · simp_all
    | South =>
      by_cases hy : r.y ≥ m.height - 1
      · simp [Robot.move_in_direction, Robot.get_next_position, hy] at hs
      · refine ⟨(r.x, r.y + 1), by simp [dirTarget], Or.inr (Or.inr (Or.inl ⟨rfl, rfl⟩)), ?_⟩
        simp only [Robot.move_in_direction, Robot.get_next_position, if_neg hy] at hs ⊢
        split at hs
        · next hv => simp_all
        · simp_all
    | West =>
      by_cases hx : r.x = 0
      · simp [Robot.move_in_direction, Robot.get_next_position, hx] at hs
      · refine ⟨(r.x - 1, r.y), by simp [dirTarget, hx], Or.inr (Or.inl ⟨by omega, rfl⟩), ?_⟩
        simp only [Robot.move_in_direction, Robot.get_next_position, if_neg hx] at hs ⊢
        split at hs
        · next hv => simp_all
        · simp_all
  · intro hf
    have hinvalid : ∀ nx ny, is_valid_move m others nx ny = false →
        ¬ (nx < m.width ∧ ny < m.height) ∨
        (∃ c, m.get_cell nx ny = some c ∧ c.cell_type = CellType.Obstacle) ∨
        occupiedByActiveRobot others nx ny = true := by
      intro nx ny hv
      by_cases hb : nx < m.width ∧ ny < m.height
      · obtain ⟨c, hcx⟩ := hcell nx ny hb.1 hb.2
        simp only [is_valid_move, hcx, Bool.and_eq_false_iff] at hv
        rcases hv with hv | hv
        · refine Or.inr (Or.inl ⟨c, hcx, ?_⟩)
          cases hct : c.cell_type <;> simp_all [isObstacleCell]
        · refine Or.inr (Or.inr ?_)
          simpa using hv
      · exact Or.inl hb
    cases dir with
    | North =>
      by_cases hy : r.y = 0
      · simp [Robot.move_in_direction, Robot.get_next_position, hy, dirTarget]
      · simp only [Robot.move_in_direction, Robot.get_next_position, if_neg hy] at hf ⊢
        split at hf
        · next hv => simp_all
        · next hv =>
          rw [if_neg hv]
          refine ⟨rfl, Or.inr ⟨(r.x, r.y - 1), by simp [dirTarget, hy], ?_⟩⟩
          exact hinvalid _ _ (by simpa using hv)
    | East =>
      by_cases hx : r.x ≥ m.width - 1
      · refine ⟨by simp [Robot.move_in_direction, Robot.get_next_position, hx],
          Or.inr ⟨(r.x + 1, r.y), by simp [dirTarget], Or.inl ?_⟩⟩
        simp only [not_and]
        intro hlt
        omega
      · simp only [Robot.move_in_direction, Robot.get_next_position, if_neg hx] at hf ⊢
        split at hf
        · next hv => simp_all
        · next hv =>
          rw [if_neg hv]
          refine ⟨rfl, Or.inr ⟨(r.x + 1, r.y), by simp [dirTarget], ?_⟩⟩
          exact hinvalid _ _ (by simpa using hv)
    | South =>
      by_cases hy : r.y ≥ m.height - 1
      · refine ⟨by simp [Robot.move_in_direction, Robot.get_next_position, hy],
          Or.inr ⟨(r.x, r.y + 1), by simp [dirTarget], Or.inl ?_⟩⟩
        simp only [not_and]
        intro hlt
        omega
      · simp only [Robot.move_in_direction, Robot.get_next_position, if_neg hy] at hf ⊢
        split at hf
        · next hv => simp_all
        · next hv =>
          rw [if_neg hv]
          refine ⟨rfl, Or.inr ⟨(r.x, r.y + 1), by simp [dirTarget], ?_⟩⟩
          exact hinvalid _ _ (by simpa using hv)
    | West =>
      by_cases hx : r.x = 0
      · simp [Robot.move_in_direction, Robot.get_next_position, hx, dirTarget]
      · simp only [Robot.move_in_direction, Robot.get_next_position, if_neg hx] at hf ⊢
        split at hf
        · next hv => simp_all
        · next hv =>
          rw [if_neg hv]
          refine ⟨rfl, Or.inr ⟨(r.x - 1, r.y), by simp [dirTarget, hx], ?_⟩⟩
          exact hinvalid _ _ (by simpa using hv)

/-- Witness for C7: an eastward move on a 2-by-1 empty map. -/
theorem claim_C7_move_in_direction_witness :
    let r0 : Robot := ⟨0, 0, 10, 0, 0, [], RobotType.Explorer, RobotState.Exploring, none, none, 0⟩
    let m0 : Map := ⟨2, 1, [[⟨CellType.Empty, false⟩, ⟨CellType.Empty, false⟩]]⟩
    ((r0.move_in_direction Direction.East m0 []).2 = true →
      ∃ t, dirTarget (r0.x, r0.y) Direction.East = some t ∧
        adjacentPos (r0.x, r0.y) t ∧
        is_valid_move m0 [] t.1 t.2 = true ∧
        (r0.move_in_direction Direction.East m0 []).1 =
          { r0 with x := t.1, y := t.2, energy := r0.energy - 1 }) := by
  intro r0 m0
  exact (claim_C7_move_in_direction r0 Direction.East m0 []
    ⟨by decide, by decide⟩).1

theorem robotTypeCounts_go (robots : List Robot) (acc : TypeCounts) :
    robots.foldl
      (fun acc r =>
        match r.robot_type with
        | RobotType.Explorer => { acc with explorer := acc.explorer + 1 }
        | RobotType.EnergyCollector => { acc with energy_collector := acc.energy_collector + 1 }
        | RobotType.MineralCollector => { acc with mineral_collector := acc.mineral_collector + 1 }
        | RobotType.Scientist => { acc with scientist := acc.scientist + 1 })
      acc =
    { explorer := acc.explorer + robots.countP (hasRobotType RobotType.Explorer),
      energy_collector := acc.energy_collector + robots.countP (hasRobotType RobotType.EnergyCollector),
      mineral_collector := acc.mineral_collector + robots.countP (hasRobotType RobotType.MineralCollector),
      scientist := acc.scientist + robots.countP (hasRobotType RobotType.Scientist) } := by
  induction robots generalizing acc with
  | nil => simp
  | cons r t ih =>
    cases hty : r.robot_type
    all_goals
      simp only [List.foldl_cons, List.countP_cons, ih, hasRobotType, hty]
      simp [hasRobotType, hty, Nat.add_assoc, Nat.add_comm, Nat.add_left_comm]

theorem robotTypeCounts_eq (robots : List Robot) :
    robotTypeCounts robots =
      { explorer := robots.countP (hasRobotType RobotType.Explorer),
        energy_collector := robots.countP (hasRobotType RobotType.EnergyCollector),
        mineral_collector := robots.countP (hasRobotType RobotType.MineralCollector),
        scientist := robots.countP (hasRobotType RobotType.Scientist) } := by
  simpa using robotTypeCounts_go robots ⟨0, 0, 0, 0⟩

theorem knownMapCounts_go (entries : List (Pos × CellType)) (acc : KnownCounts) :
    entries.foldl
      (fun acc e =>
        match e.2 with
        | CellType.Energy amount =>
            if amount > 0 then { acc with energy_sources := acc.energy_sources + 1 } else acc
        | CellType.Mineral amount =>
            if amount > 0 then { acc with mineral_sources := acc.mineral_sources + 1 } else acc
        | CellType.SciencePoint => { acc with science_sources := acc.science_sources + 1 }
        | CellType.Empty => { acc with unexplored_cells := acc.unexplored_cells + 1 }
        | _ => acc)
      acc =
    { energy_sources := acc.energy_sources + entries.countP energySourceEntry,
      mineral_sources := acc.mineral_sources + entries.countP mineralSourceEntry,
      science_sources := acc.science_sources + entries.countP scienceSourceEntry,
      unexplored_cells := acc.unexplored_cells + entries.countP unexploredEntry } := by
  induction entries generalizing acc with
  | nil => simp
  | cons e t ih =>
    obtain ⟨p, c⟩ := e
    cases c with
    | Energy a =>
      simp only [List.foldl_cons, List.countP_cons, ih,
        energySourceEntry, mineralSourceEntry, scienceSourceEntry, unexploredEntry]
      by_cases ha : 0 < a
      all_goals simp [ha, Nat.add_assoc, Nat.add_comm, Nat.add_left_comm]
    | Mineral a =>
      simp only [List.foldl_cons, List.countP_cons, ih,
        energySourceEntry, mineralSourceEntry, scienceSourceEntry, unexploredEntry]
      by_cases ha : 0 < a
      all_goals simp [ha, Nat.add_assoc, Nat.add_comm, Nat.add_left_comm]
    | SciencePoint =>
      simp only [List.foldl_cons, List.countP_cons, ih,
        energySourceEntry, mineralSourceEntry, scienceSourceEntry, unexploredEntry]
      simp [Nat.add_assoc, Nat.add_comm, Nat.add_left_comm]
    | Empty =>
      simp only [List.foldl_cons, List.countP_cons, ih,
        energySourceEntry, mineralSourceEntry, scienceSourceEntry, unexploredEntry]
      simp [Nat.add_assoc, Nat.add_comm, Nat.add_left_comm]
    | Obstacle =>
      simp only [List.foldl_cons, List.countP_cons, ih,
        energySourceEntry, mineralSourceEntry, scienceSourceEntry, unexploredEntry]
      simp

theorem knownMapCounts_eq (entries : List (Pos × CellType)) :
    knownMapCounts entries =
      { energy_sources := entries.countP energySourceEntry,
        mineral_sources := entries.countP mineralSourceEntry,
        science_sources := entries.countP scienceSourceEntry,
        unexplored_cells := entries.countP unexploredEntry } := by
  simpa using knownMapCounts_go entries ⟨0, 0, 0, 0⟩

/-- C10: `choose_robot_type` returns Explorer when no explorer exists or when
more than 10 known cells are unexplored with fewer than 2 explorers; otherwise
EnergyCollector when station energy is below 300, a known positive-amount
energy source exists and fewer than 2 energy collectors exist; otherwise
MineralCollector when known positive-amount mineral sources outnumber known
positive-amount energy sources and fewer than 2 mineral collectors exist;
otherwise Scientist when a known science source exists and no scientist
exists; otherwise Explorer. -/
theorem claim_C10_choose_robot_type (st : Station) :
    st.choose_robot_type =
      (if st.robots.countP (hasRobotType RobotType.Explorer) = 0 ∨
          (10 < st.known_map.countP unexploredEntry ∧
           st.robots.countP (hasRobotType RobotType.Explorer) < 2) then
        RobotType.Explorer
      else if st.energy < 300 ∧ 0 < st.known_map.countP energySourceEntry ∧
          st.robots.countP (hasRobotType RobotType.EnergyCollector) < 2 then
        RobotType.EnergyCollector
      else if st.known_map.countP energySourceEntry < st.known_map.countP mineralSourceEntry ∧
          st.robots.countP (hasRobotType RobotType.MineralCollector) < 2 then
        RobotType.MineralCollector
      else if 0 < st.known_map.countP scienceSourceEntry ∧
          st.robots.countP (hasRobotType RobotType.Scientist) < 1 then
        RobotType.Scientist
      else RobotType.Explorer) := by
  simp only [Station.choose_robot_type, robotTypeCounts_eq, knownMapCounts_eq,
    Bool.or_eq_true, Bool.and_eq_true, decide_eq_true_eq, gt_iff_lt]
  split_ifs <;> first | rfl | tauto

theorem move_in_direction_pending (r : Robot) (dir : Direction) (m : Map)
    (others : List Robot) :
    (r.move_in_direction dir m others).1.pending_exploration_updates =
      r.pending_exploration_updates := by
  unfold Robot.move_in_direction
  cases r.get_next_position dir m with
  | none => rfl
  | some p =>
    obtain ⟨nx, ny⟩ := p
    by_cases hv : is_valid_move m others nx ny = true
    · simp [hv]
    · simp [hv]

theorem move_in_direction_fields (r : Robot) (dir : Direction) (m : Map)
    (others : List Robot) :
    (r.move_in_direction dir m others).1.minerals = r.minerals ∧
    (r.move_in_direction dir m others).1.science_points = r.science_points ∧
    (r.move_in_direction dir m others).1.state = r.state ∧
    (r.move_in_direction dir m others).1.robot_type = r.robot_type ∧
    (r.move_in_direction dir m others).1.steps_since_last_find = r.steps_since_last_find := by
  unfold Robot.move_in_direction
  cases r.get_next_position dir m with
  | none => exact ⟨rfl, rfl, rfl, rfl, rfl⟩
  | some p =>
    obtain ⟨nx, ny⟩ := p
    by_cases hv : is_valid_move m others nx ny = true
    · simp [hv]
    · simp [hv]

theorem move_randomly_pending (r : Robot) (m : Map) (others : List Robot) (g : Rng) :
    (r.move_randomly m others g).1.pending_exploration_updates =
      r.pending_exploration_updates := by
  unfold Robot.move_randomly
  have haux : ∀ (dirs : List Direction) (acc : Robot × Bool),
      acc.1.pending_exploration_updates = r.pending_exploration_updates →
      (dirs.foldl (fun (acc : Robot × Bool) dir =>
          if acc.2 then acc else acc.1.move_in_direction dir m others) acc).1.pending_exploration_updates =
        r.pending_exploration_updates := by
    intro dirs
    induction dirs with
    | nil => intro acc h; exact h
    | cons d t ih =>
      intro acc h
      simp only [List.foldl_cons]
      apply ih
      by_cases hm : acc.2
      · simpa [hm] using h
      · simpa [hm, move_in_direction_pending] using h
  exact haux _ (r, false) rfl

theorem try_unstuck_pending (r : Robot) (m : Map) (others : List Robot)
    (offs : Nat → Nat → Int × Int) :
    (r.try_unstuck m others offs).pending_exploration_updates =
      r.pending_exploration_updates := by
  unfold Robot.try_unstuck
  cases (unstuckScan m others r.x r.y offs).1 with
  | none => rfl
  | some p =>
    obtain ⟨nx, ny⟩ := p
    rfl

theorem explorePhaseMove_pending (r : Robot) (m : Map) (others : List Robot) (g : Rng) :
    (r.explorePhaseMove m others g).1.pending_exploration_updates =
      ((r.collect_resource m).1.explore (r.collect_resource m).2.1).1.pending_exploration_updates := by
  unfold Robot.explorePhaseMove
  cases hd : (match ((r.collect_resource m).1.explore (r.collect_resource m).2.1).1.robot_type with
    | RobotType.Explorer =>
        ((choose_explorer_direction ((r.collect_resource m).1.explore (r.collect_resource m).2.1).1
          ((r.collect_resource m).1.explore (r.collect_resource m).2.1).2.1 others, g) : Option Direction × Rng)
    | RobotType.EnergyCollector =>
        choose_resource_direction ((r.collect_resource m).1.explore (r.collect_resource m).2.1).1
          ((r.collect_resource m).1.explore (r.collect_resource m).2.1).2.1 others isEnergyCellType g
    | RobotType.MineralCollector =>
        choose_resource_direction ((r.collect_resource m).1.explore (r.collect_resource m).2.1).1
          ((r.collect_resource m).1.explore (r.collect_resource m).2.1).2.1 others isMineralCellType g
    | RobotType.Scientist =>
        choose_resource_direction ((r.collect_resource m).1.explore (r.collect_resource m).2.1).1
          ((r.collect_resource m).1.explore (r.collect_resource m).2.1).2.1 others isScienceCellType g).1 with
  | some dir =>
    simp only [hd]
    by_cases hm : (((r.collect_resource m).1.explore (r.collect_resource m).2.1).1.move_in_direction dir
        ((r.collect_resource m).1.explore (r.collect_resource m).2.1).2.1 others).2 = true
    · simp only [hm, if_pos]
      split
      all_goals simp [move_in_direction_pending]
    · simp only [Bool.not_eq_true] at hm
      simp [hm, move_in_direction_pending]
  | none =>
    simp only [hd]
    split
    all_goals simp [move_randomly_pending]

/-- A position that the unstuck scan may legally teleport to: in bounds, not
an obstacle, not occupied by another robot with positive energy. -/
def unstuckLegal (m : Map) (others : List Robot) (p : Pos) : Prop :=
  ∃ cell, m.get_cell p.1 p.2 = some cell ∧
    isObstacleCell cell.cell_type = false ∧
    occupiedByActiveRobot others p.1 p.2 = false

theorem unstuckScanStep_legal (m : Map) (others : List Robot) (rx ry : Nat)
    (offs : Nat → Nat → Int × Int) (radius angle : Nat) (acc : Option Pos × Int)
    (hacc : ∀ p, acc.1 = some p → unstuckLegal m others p) :
    ∀ p, (unstuckScanStep m others rx ry offs radius angle acc).1 = some p →
      unstuckLegal m others p := by
  intro p hp
  simp only [unstuckScanStep] at hp
  split at hp
  · next cell heq =>
    split at hp
    · next hfree =>
      simp only [Bool.and_eq_true, Bool.not_eq_true'] at hfree
      split at hp
      all_goals split at hp
      all_goals
        first
          | exact hacc p hp
          | (simp only [Option.some.injEq] at hp
             subst hp
             exact ⟨cell, heq, hfree.1, hfree.2⟩)
    · next => exact hacc p hp
  · next heq => exact hacc p hp

theorem unstuckAngleFold_legal (m : Map) (others : List Robot) (rx ry : Nat)
    (offs : Nat → Nat → Int × Int) (radius : Nat) (angles : List Nat)
    (acc : Option Pos × Int)
    (hacc : ∀ p, acc.1 = some p → unstuckLegal m others p) :
    ∀ p, (angles.foldl (fun a angle => unstuckScanStep m others rx ry offs radius angle a)
        acc).1 = some p → unstuckLegal m others p := by
  induction angles generalizing acc with
  | nil => exact hacc
  | cons a t ih =>
    simp only [List.foldl_cons]
    exact ih _ (unstuckScanStep_legal m others rx ry offs radius a acc hacc)

theorem unstuckRadiusScan_legal (m : Map) (others : List Robot) (rx ry : Nat)
    (offs : Nat → Nat → Int × Int) (radii : List Nat) (acc : Option Pos × Int)
    (hacc : ∀ p, acc.1 = some p → unstuckLegal m others p) :
    ∀ p, (unstuckRadiusScan m others rx ry offs radii acc).1 = some p →
      unstuckLegal m others p := by
  induction radii generalizing acc with
  | nil => exact hacc
  | cons radius rest ih =>
    intro p hp
    simp only [unstuckRadiusScan] at hp
    have hfold := unstuckAngleFold_legal m others rx ry offs radius (List.range 16) acc hacc
    split at hp
    · exact hfold p hp
    · exact ih _ hfold p hp

theorem unstuckScan_legal (m : Map) (others : List Robot) (rx ry : Nat)
    (offs : Nat → Nat → Int × Int) :
    ∀ p, (unstuckScan m others rx ry offs).1 = some p → unstuckLegal m others p := by
  apply unstuckRadiusScan_legal
  intro p hp
  exact absurd hp (by simp)

/-- C8: in an Exploring tick that does not transition to returning, the
long-range unstuck scan runs exactly when the stuck counter exceeds 5 after
the move phase; a found candidate is legal and the robot teleports to it,
paying a saturating flat 3-energy cost and clearing the stuck counter, while
an empty scan leaves the robot entirely unchanged. -/
theorem claim_C8_unstuck_scan (r : Robot) (m : Map) (sx sy : Nat)
    (others : List Robot) (g : Rng) (offs : Nat → Nat → Int × Int) :
    (r.should_return_to_station = false →
      r.autonomous_explore m sx sy others g offs =
        (if (r.explorePhaseMove m others g).1.steps_since_last_find > 5 then
          ((r.explorePhaseMove m others g).1.try_unstuck
              (r.explorePhaseMove m others g).2.1 others offs,
            (r.explorePhaseMove m others g).2.1, (r.explorePhaseMove m others g).2.2)
        else r.explorePhaseMove m others g)) ∧
    (∀ nx ny,
      (unstuckScan (r.explorePhaseMove m others g).2.1 others
          (r.explorePhaseMove m others g).1.x (r.explorePhaseMove m others g).1.y offs).1 =
        some (nx, ny) →
      (r.explorePhaseMove m others g).1.try_unstuck (r.explorePhaseMove m others g).2.1
          others offs =
        { (r.explorePhaseMove m others g).1 with
            x := nx, y := ny, steps_since_last_find := 0,
            energy := (r.explorePhaseMove m others g).1.energy - 3 } ∧
      unstuckLegal (r.explorePhaseMove m others g).2.1 others (nx, ny)) ∧
    ((unstuckScan (r.explorePhaseMove m others g).2.1 others
          (r.explorePhaseMove m others g).1.x (r.explorePhaseMove m others g).1.y offs).1 =
        none →
      (r.explorePhaseMove m others g).1.try_unstuck (r.explorePhaseMove m others g).2.1
          others offs = (r.explorePhaseMove m others g).1) := by
  refine ⟨?_, ?_, ?_⟩
  · intro hret
    unfold Robot.autonomous_explore
    rw [hret]
    simp only [Bool.false_eq_true, if_false]
  · intro nx ny hscan
    constructor
    · unfold Robot.try_unstuck
      rw [hscan]
    · exact unstuckScan_legal _ _ _ _ offs (nx, ny) hscan
  · intro hscan
    unfold Robot.try_unstuck
    rw [hscan]

/-- Witness for C8 on a 1-by-1 obstacle map where the scan finds no candidate. -/
theorem claim_C8_unstuck_scan_witness :
    let r0 : Robot := ⟨0, 0, 50, 0, 0, [], RobotType.Explorer, RobotState.Exploring, none, none, 6⟩
    let m0 : Map := ⟨1, 1, [[⟨CellType.Obstacle, false⟩]]⟩
    let offs0 : Nat → Nat → Int × Int := fun _ _ => (1, 0)
    (r0.autonomous_explore m0 0 0 [] [] offs0 =
      (if (r0.explorePhaseMove m0 [] []).1.steps_since_last_find > 5 then
        ((r0.explorePhaseMove m0 [] []).1.try_unstuck (r0.explorePhaseMove m0 [] []).2.1 [] offs0,
          (r0.explorePhaseMove m0 [] []).2.1, (r0.explorePhaseMove m0 [] []).2.2)
      else r0.explorePhaseMove m0 [] [])) ∧
    ((r0.explorePhaseMove m0 [] []).1.try_unstuck (r0.explorePhaseMove m0 [] []).2.1 [] offs0 =
      (r0.explorePhaseMove m0 [] []).1) := by
  intro r0 m0 offs0
  have h := claim_C8_unstuck_scan r0 m0 0 0 [] [] offs0
  exact ⟨h.1 (by decide), h.2.2 (by decide)⟩

theorem get_cell_some_valid (m : Map) (x y : Nat) (c : Cell)
    (hc : m.get_cell x y = some c) : m.is_valid_position x y = true := by
  by_cases hv : m.is_valid_position x y = true
  · exact hv
  · simp [Map.get_cell, hv] at hc

theorem collect_resource_fields (r : Robot) (m : Map) :
    (r.collect_resource m).1.x = r.x ∧ (r.collect_resource m).1.y = r.y ∧
    (r.collect_resource m).1.pending_exploration_updates = r.pending_exploration_updates := by
  unfold Robot.collect_resource
  rcases hm : Map.collect_resource m r.x r.y with ⟨opt, m'⟩
  cases opt with
  | none => exact ⟨rfl, rfl, rfl⟩
  | some val =>
    obtain ⟨ty, amt⟩ := val
    cases ty
    all_goals exact ⟨rfl, rfl, rfl⟩

theorem explore_pending_of_get_cell (r1 : Robot) (m1 : Map) (c1 : Cell)
    (hc1 : m1.get_cell r1.x r1.y = some c1) :
    (r1.explore m1).1.pending_exploration_updates =
      r1.pending_exploration_updates ++ [((r1.x, r1.y), c1.cell_type)] := by
  have hv : m1.is_valid_position r1.x r1.y = true := get_cell_some_valid m1 _ _ c1 hc1
  unfold Robot.explore
  simp only [Map.explore, hv, if_pos, if_true]
  rw [Map.get_cell_modifyCell_self, hc1]
  simp

theorem autonomous_explore_pending (r : Robot) (m : Map) (sx sy : Nat)
    (others : List Robot) (g : Rng) (offs : Nat → Nat → Int × Int)
    (hret : r.should_return_to_station = false) :
    (r.autonomous_explore m sx sy others g offs).1.pending_exploration_updates =
      (r.explorePhaseMove m others g).1.pending_exploration_updates := by
  unfold Robot.autonomous_explore
  rw [hret]
  simp only [Bool.false_eq_true, if_false]
  split
  · exact try_unstuck_pending _ _ _ _
  · rfl

/-- C5: on an Exploring tick that stays exploring, the entry appended to the
pending exploration updates records the current cell's type as read after the
extraction attempt; in particular a drained Energy, Mineral, or SciencePoint
cell is recorded as Empty, never as its prior resource type. -/
theorem claim_C5_drained_cell_report (r : Robot) (m : Map) (sx sy : Nat)
    (others : List Robot) (g : Rng) (offs : Nat → Nat → Int × Int)
    (hret : r.should_return_to_station = false) (c : Cell)
    (hc : m.get_cell r.x r.y = some c) :
    ∃ c1, ((r.collect_resource m).2.1).get_cell r.x r.y = some c1 ∧
      (r.autonomous_explore m sx sy others g offs).1.pending_exploration_updates =
        r.pending_exploration_updates ++ [((r.x, r.y), c1.cell_type)] ∧
      ((isEnergyCellType c.cell_type || isMineralCellType c.cell_type ||
        isScienceCellType c.cell_type) = true → c1.cell_type = CellType.Empty) := by
  obtain ⟨hx1, hy1, hp1⟩ := collect_resource_fields r m
  have hpend := autonomous_explore_pending r m sx sy others g offs hret
  rw [explorePhaseMove_pending] at hpend
  have hmain : ∃ c1, ((r.collect_resource m).2.1).get_cell r.x r.y = some c1 ∧
      ((isEnergyCellType c.cell_type || isMineralCellType c.cell_type ||
        isScienceCellType c.cell_type) = true → c1.cell_type = CellType.Empty) := by
    cases hct : c.cell_type with
    | Energy a =>
      refine ⟨{ c with cell_type := CellType.Empty }, ?_, fun _ => rfl⟩
      simp [Robot.collect_resource, Map.collect_resource, hc, hct,
        Map.get_cell_modifyCell_self]
    | Mineral a =>
      refine ⟨{ c with cell_type := CellType.Empty }, ?_, fun _ => rfl⟩
      simp [Robot.collect_resource, Map.collect_resource, hc, hct,
        Map.get_cell_modifyCell_self]
    | SciencePoint =>
      refine ⟨{ c with cell_type := CellType.Empty }, ?_, fun _ => rfl⟩
      simp [Robot.collect_resource, Map.collect_resource, hc, hct,
        Map.get_cell_modifyCell_self]
    | Empty =>
      refine ⟨c, ?_, fun _ => hct⟩
      simp [Robot.collect_resource, Map.collect_resource, hc, hct]
    | Obstacle =>
      refine ⟨c, ?_, ?_⟩
      · simp [Robot.collect_resource, Map.collect_resource, hc, hct]
      · intro habs
        simp [isEnergyCellType, isMineralCellType, isScienceCellType] at habs
  obtain ⟨c1, hc1, hres⟩ := hmain
  refine ⟨c1, hc1, ?_, hres⟩
  rw [hpend]
  have hc1' : ((r.collect_resource m).2.1).get_cell (r.collect_resource m).1.x
      (r.collect_resource m).1.y = some c1 := by
    rw [hx1, hy1]
    exact hc1
  rw [explore_pending_of_get_cell (r.collect_resource m).1 (r.collect_resource m).2.1 c1 hc1']
  rw [hp1, hx1, hy1]

/-- Witness for C5: an Explorer on an Energy(7) cell of a 2-by-1 map. -/
theorem claim_C5_drained_cell_report_witness :
    let r0 : Robot := ⟨0, 0, 50, 0, 0, [], RobotType.Explorer, RobotState.Exploring, none, none, 0⟩
    let m0 : Map := ⟨2, 1, [[⟨CellType.Energy 7, false⟩, ⟨CellType.Empty, false⟩]]⟩
    let c0 : Cell := ⟨CellType.Energy 7, false⟩
    ∃ c1, ((r0.collect_resource m0).2.1).get_cell r0.x r0.y = some c1 ∧
      (r0.autonomous_explore m0 0 0 [] [] (fun _ _ => (1, 0))).1.pending_exploration_updates =
        r0.pending_exploration_updates ++ [((r0.x, r0.y), c1.cell_type)] ∧
      ((isEnergyCellType c0.cell_type || isMineralCellType c0.cell_type ||
        isScienceCellType c0.cell_type) = true → c1.cell_type = CellType.Empty) := by
  intro r0 m0 c0
  exact claim_C5_drained_cell_report r0 m0 0 0 [] [] (fun _ _ => (1, 0))
    (by decide) c0 (by decide)

/-! ## A-star correctness development -/

theorem adjacentPos_ne {a b : Pos} (h : adjacentPos a b) : a ≠ b := by
  obtain ⟨a1, a2⟩ := a
  obtain ⟨b1, b2⟩ := b
  rcases h with ⟨h1, h2⟩ | ⟨h1, h2⟩ | ⟨h1, h2⟩ | ⟨h1, h2⟩
  all_goals
    intro hc
    injection hc with hc1 hc2
    omega

theorem neighborOffsets_adjacent (x y : Nat) (o : Option Pos)
    (ho : o ∈ neighborOffsets x y) (p : Pos) (hp : o = some p) :
    adjacentPos (x, y) p := by
  subst hp
  simp only [neighborOffsets, List.mem_cons, List.not_mem_nil, or_false] at ho
  rcases ho with ho | ho | ho | ho
  · by_cases hx : x = 0
    · simp [hx] at ho
    · simp only [if_neg hx, Option.some.injEq] at ho
      subst ho
      refine Or.inr (Or.inl ⟨?_, rfl⟩)
      omega
  · simp only [Option.some.injEq] at ho
    subst ho
    exact Or.inl ⟨rfl, rfl⟩
  · by_cases hy : y = 0
    · simp [hy] at ho
    · simp only [if_neg hy, Option.some.injEq] at ho
      subst ho
      refine Or.inr (Or.inr (Or.inr ⟨?_, rfl⟩))
      omega
  · simp only [Option.some.injEq] at ho
    subst ho
    exact Or.inr (Or.inr (Or.inl ⟨rfl, rfl⟩))

theorem adjacent_mem_neighborOffsets (x y : Nat) (b : Pos)
    (h : adjacentPos (x, y) b) : some b ∈ neighborOffsets x y := by
  obtain ⟨b1, b2⟩ := b
  simp only [neighborOffsets, List.mem_cons, List.not_mem_nil, or_false]
  rcases h with ⟨h1, h2⟩ | ⟨h1, h2⟩ | ⟨h1, h2⟩ | ⟨h1, h2⟩
  all_goals simp only at h1 h2
  · refine Or.inr (Or.inl ?_)
    simp only [Option.some.injEq, Prod.mk.injEq]
    omega
  · refine Or.inl ?_
    rw [if_neg (by omega : ¬ x = 0)]
    simp only [Option.some.injEq, Prod.mk.injEq]
    omega
  · refine Or.inr (Or.inr (Or.inr ?_))
    simp only [Option.some.injEq, Prod.mk.injEq]
    omega
  · refine Or.inr (Or.inr (Or.inl ?_))
    rw [if_neg (by omega : ¬ y = 0)]
    simp only [Option.some.injEq, Prod.mk.injEq]
    omega

theorem legal_in_bounds (m : Map) (robots : List Robot) (p : Pos)
    (h : legalCell m robots p) : p.1 < m.width ∧ p.2 < m.height := by
  unfold legalCell is_valid_move at h
  cases hc : m.get_cell p.1 p.2 with
  | none => rw [hc] at h; simp at h
  | some c =>
    have hv := get_cell_some_valid m p.1 p.2 c hc
    simp only [Map.is_valid_position, Bool.and_eq_true, decide_eq_true_eq] at hv
    exact hv

theorem popMin_f_min (l : List PathNode) (c : PathNode) (rest : List PathNode)
    (h : popMin l = some (c, rest)) : ∀ e ∈ l, c.f_cost ≤ e.f_cost := by
  induction l generalizing c rest with
  | nil => simp [popMin] at h
  | cons n t ih =>
    intro e he
    simp only [popMin] at h
    cases hp : popMin t with
    | none =>
      rw [hp] at h
      have ht : t = [] := by
        cases t with
        | nil => rfl
        | cons a b => exact absurd hp (popMin_ne_none a b)
      subst ht
      simp only [Option.some.injEq, Prod.mk.injEq] at h
      obtain ⟨rfl, rfl⟩ := h
      simp only [List.mem_singleton] at he
      subst he
      exact le_refl _
    | some pr =>
      obtain ⟨b, rest'⟩ := pr
      rw [hp] at h
      have hmin := ih b rest' hp
      by_cases hle : nodeLE n b = true
      · simp only [hle, if_true, Option.some.injEq, Prod.mk.injEq] at h
        obtain ⟨h1, h2⟩ := h
        subst h1
        have hcb : n.f_cost ≤ b.f_cost := by
          simp only [nodeLE, Bool.or_eq_true, Bool.and_eq_true, decide_eq_true_eq] at hle
          omega
        rcases List.mem_cons.mp he with rfl | he2
        · exact le_refl _
        · exact le_trans hcb (hmin e he2)
      · simp only [hle, if_false, Bool.false_eq_true, Option.some.injEq, Prod.mk.injEq] at h
        obtain ⟨h1, h2⟩ := h
        subst h1
        have hcn : b.f_cost ≤ n.f_cost := by
          simp only [nodeLE, Bool.or_eq_true, Bool.and_eq_true, decide_eq_true_eq,
            not_or, not_and, not_lt] at hle
          omega
        rcases List.mem_cons.mp he with rfl | he2
        · exact hcn
        · exact hmin e he2

theorem popMin_mem_iff (l : List PathNode) (c : PathNode) (rest : List PathNode)
    (h : popMin l = some (c, rest)) : ∀ e, e ∈ l ↔ (e = c ∨ e ∈ rest) := by
  intro e
  have hperm := popMin_perm l c rest h
  rw [← hperm.mem_iff]
  simp [List.mem_cons]

theorem heuristic_self (x y : Nat) : heuristic x y x y = 0 := by
  simp [heuristic]

theorem heuristic_adj (a b : Pos) (g1 g2 : Nat) (h : adjacentPos a b) :
    heuristic a.1 a.2 g1 g2 ≤ heuristic b.1 b.2 g1 g2 + 1 := by
  obtain ⟨a1, a2⟩ := a
  obtain ⟨b1, b2⟩ := b
  rcases h with ⟨h1, h2⟩ | ⟨h1, h2⟩ | ⟨h1, h2⟩ | ⟨h1, h2⟩
  all_goals
    simp only at h1 h2
    simp only [heuristic]
    omega

theorem reach_heuristic (m : Map) (robots : List Robot) (a goal : Pos) (n : Nat)
    (h : ReachN m robots a n goal) :
    heuristic a.1 a.2 goal.1 goal.2 ≤ n := by
  induction h with
  | refl p => simp [heuristic_self]
  | step hadj hleg htail ih =>
    rename_i a0 b0 c0 n0
    have hstep := heuristic_adj a0 b0 c0.1 c0.2 hadj
    omega

theorem ReachN_snoc_mk (m : Map) (robots : List Robot) :
    ∀ {a b c : Pos} {n : Nat}, ReachN m robots a n b → adjacentPos b c →
      legalCell m robots c → ReachN m robots a (n + 1) c := by
  intro a b c n h
  induction h with
  | refl p =>
    intro hadj hleg
    exact ReachN.step hadj hleg (ReachN.refl c)
  | step hadj hleg htail ih =>
    intro hadj2 hleg2
    exact ReachN.step hadj hleg (ih hadj2 hleg2)

theorem ReachN_snoc (m : Map) (robots : List Robot) :
    ∀ (n : Nat) {a c : Pos}, ReachN m robots a (n + 1) c →
      ∃ b, ReachN m robots a n b ∧ adjacentPos b c ∧ legalCell m robots c := by
  intro n
  induction n with
  | zero =>
    intro a c h
    cases h with
    | step hadj hleg htail =>
      cases htail
      exact ⟨a, ReachN.refl a, hadj, hleg⟩
  | succ k ih =>
    intro a c h
    cases h with
    | step hadj hleg htail =>
      obtain ⟨b2, hr, hadj2, hleg2⟩ := ih htail
      exact ⟨b2, ReachN.step hadj hleg hr, hadj2, hleg2⟩

theorem relaxNeighbor_effect (m : Map) (robots : List Robot) (goal cur : Pos)
    (st : AState)
    (hbound : ∀ k v, lookupA st.g_score k = some v → v < U32_MAX)
    (o : Option Pos) (ho : o ∈ neighborOffsets cur.1 cur.2) :
    RelaxEffect m robots goal cur st (relaxNeighbor m robots goal cur st o) := by
  cases o with
  | none => exact Or.inl rfl
  | some p =>
    obtain ⟨nx, ny⟩ := p
    by_cases hb : nx ≥ m.width ∨ ny ≥ m.height
    · refine Or.inl ?_
      simp only [relaxNeighbor, if_pos hb]
    · by_cases hv : is_valid_move m robots nx ny = false
      · refine Or.inl ?_
        simp only [relaxNeighbor, if_neg hb, if_pos hv]
      · cases hcur : lookupA st.g_score cur with
        | none =>
          refine Or.inl ?_
          have hnlt : ¬ (U32_MAX + 1 < (match lookupA st.g_score (nx, ny) with
              | some w => w
              | none => U32_MAX)) := by
            cases hn : lookupA st.g_score (nx, ny) with
            | none =>
              show ¬ (U32_MAX + 1 < U32_MAX)
              omega
            | some w =>
              have hw := hbound _ _ hn
              show ¬ (U32_MAX + 1 < w)
              omega
          simp only [relaxNeighbor, if_neg hb, if_neg hv, hcur, if_neg hnlt]
        | some v =>
          by_cases hlt : v + 1 < (match lookupA st.g_score (nx, ny) with
              | some w => w
              | none => U32_MAX)
          · refine Or.inr ⟨nx, ny, v, ?_, ?_, hcur, ?_, ?_, ?_⟩
            · exact neighborOffsets_adjacent cur.1 cur.2 _ ho (nx, ny) rfl
            · unfold legalCell
              revert hv
              cases is_valid_move m robots nx ny
              all_goals simp
            · intro w hw
              rw [hw] at hlt
              exact hlt
            · intro hn
              rw [hn] at hlt
              exact hlt
            · simp only [relaxNeighbor, if_neg hb, if_neg hv, hcur, if_pos hlt]
          · refine Or.inl ?_
            simp only [relaxNeighbor, if_neg hb, if_neg hv, hcur, if_neg hlt]

theorem relaxEffect_g_cur (m : Map) (robots : List Robot) (goal cur : Pos)
    (st st2 : AState) (h : RelaxEffect m robots goal cur st st2) :
    lookupA st2.g_score cur = lookupA st.g_score cur := by
  rcases h with rfl | ⟨nx, ny, v, hadj, hleg, hcur, hall, hnone, rfl⟩
  · rfl
  · have hne : cur ≠ ((nx, ny) : Pos) := adjacentPos_ne hadj
    exact lookupA_insertA_ne st.g_score (nx, ny) cur (v + 1) hne

theorem relaxEffect_g_mono (m : Map) (robots : List Robot) (goal cur : Pos)
    (st st2 : AState) (h : RelaxEffect m robots goal cur st st2) :
    ∀ k v, lookupA st.g_score k = some v →
      ∃ v', lookupA st2.g_score k = some v' ∧ v' ≤ v := by
  rcases h with rfl | ⟨nx, ny, v0, hadj, hleg, hcur, hall, hnone, rfl⟩
  · intro k v hk
    exact ⟨v, hk, le_refl v⟩
  · intro k v hk
    by_cases hke : k = ((nx, ny) : Pos)
    · subst hke
      have hlt := hall v hk
      refine ⟨v0 + 1, ?_, by omega⟩
      exact lookupA_insertA_self st.g_score (nx, ny) (v0 + 1)
    · refine ⟨v, ?_, le_refl v⟩
      rw [lookupA_insertA_ne st.g_score (nx, ny) k (v0 + 1) hke]
      exact hk

theorem relaxEffect_baseInv (m : Map) (robots : List Robot) (start goal cur : Pos)
    (st st2 : AState) (h : RelaxEffect m robots goal cur st st2)
    (hB : BaseInv m robots start goal st) : BaseInv m robots start goal st2 := by
  rcases h with rfl | ⟨nx, ny, v0, hadj, hleg, hcur, hall, hnone, rfl⟩
  · exact hB
  · have hnb : cur ≠ ((nx, ny) : Pos) := adjacentPos_ne hadj
    constructor
    · intro e he
      have he2 : e ∈ st.open_set ++
          [PathNode.make nx ny (v0 + 1) (heuristic nx ny goal.1 goal.2)] := he
      simp only [List.mem_append, List.mem_singleton] at he2
      rcases he2 with he2 | he2
      · obtain ⟨v, hv, hvle⟩ := hB.open_g e he2
        by_cases hk : ((e.x, e.y) : Pos) = (nx, ny)
        · have hv2 : lookupA st.g_score ((nx, ny) : Pos) = some v := by
            rw [← hk]
            exact hv
          have hlt := hall v hv2
          refine ⟨v0 + 1, ?_, by omega⟩
          show lookupA (insertA st.g_score (nx, ny) (v0 + 1)) (e.x, e.y) = some (v0 + 1)
          rw [hk]
          exact lookupA_insertA_self _ _ _
        · refine ⟨v, ?_, hvle⟩
          show lookupA (insertA st.g_score (nx, ny) (v0 + 1)) (e.x, e.y) = some v
          rw [lookupA_insertA_ne st.g_score (nx, ny) (e.x, e.y) (v0 + 1) hk]
          exact hv
      · subst he2
        refine ⟨v0 + 1, ?_, le_refl _⟩
        show lookupA (insertA st.g_score (nx, ny) (v0 + 1)) (nx, ny) = some (v0 + 1)
        exact lookupA_insertA_self _ _ _
    · intro e he
      have he2 : e ∈ st.open_set ++
          [PathNode.make nx ny (v0 + 1) (heuristic nx ny goal.1 goal.2)] := he
      simp only [List.mem_append, List.mem_singleton] at he2
      rcases he2 with he2 | he2
      · exact hB.open_h e he2
      · subst he2
        exact ⟨rfl, rfl⟩
    · have hne : start ≠ ((nx, ny) : Pos) := by
        intro hcontra
        have h0 := hB.g_start
        rw [hcontra] at h0
        have := hall 0 h0
        omega
      show lookupA (insertA st.g_score (nx, ny) (v0 + 1)) start = some 0
      rw [lookupA_insertA_ne st.g_score (nx, ny) start (v0 + 1) hne]
      exact hB.g_start
    · intro k v hk
      by_cases hke : k = ((nx, ny) : Pos)
      · subst hke
        have hk2 : lookupA (insertA st.g_score (nx, ny) (v0 + 1)) (nx, ny) = some v := hk
        rw [lookupA_insertA_self] at hk2
        injection hk2 with h2
        have hv : v = v0 + 1 := by omega
        subst hv
        cases hn : lookupA st.g_score (nx, ny) with
        | none => exact hnone hn
        | some w =>
          have h1 := hall w hn
          have h2 := hB.g_bound _ _ hn
          omega
      · have hk2 : lookupA st.g_score k = some v := by
          have hk3 : lookupA (insertA st.g_score (nx, ny) (v0 + 1)) k = some v := hk
          rw [lookupA_insertA_ne st.g_score (nx, ny) k (v0 + 1) hke] at hk3
          exact hk3
        exact hB.g_bound k v hk2
    · intro k p hk
      by_cases hke : k = ((nx, ny) : Pos)
      · subst hke
        have hk2 : lookupA (insertA st.came_from (nx, ny) cur) (nx, ny) = some p := hk
        rw [lookupA_insertA_self] at hk2
        injection hk2 with h2
        subst h2
        exact ⟨hadj, hleg⟩
      · have hk2 : lookupA st.came_from k = some p := by
          have hk3 : lookupA (insertA st.came_from (nx, ny) cur) k = some p := hk
          rw [lookupA_insertA_ne st.came_from (nx, ny) k cur hke] at hk3
          exact hk3
        exact hB.came_valid k p hk2
    · intro k p hk
      by_cases hke : k = ((nx, ny) : Pos)
      · subst hke
        have hk2 : lookupA (insertA st.came_from (nx, ny) cur) (nx, ny) = some p := hk
        rw [lookupA_insertA_self] at hk2
        injection hk2 with h2
        subst h2
        refine ⟨v0 + 1, v0, ?_, ?_, by omega⟩
        · show lookupA (insertA st.g_score (nx, ny) (v0 + 1)) (nx, ny) = some (v0 + 1)
          exact lookupA_insertA_self _ _ _
        · show lookupA (insertA st.g_score (nx, ny) (v0 + 1)) cur = some v0
          rw [lookupA_insertA_ne st.g_score (nx, ny) cur (v0 + 1) hnb]
          exact hcur
      · have hk2 : lookupA st.came_from k = some p := by
          have hk3 : lookupA (insertA st.came_from (nx, ny) cur) k = some p := hk
          rw [lookupA_insertA_ne st.came_from (nx, ny) k cur hke] at hk3
          exact hk3
        obtain ⟨vk, vp, hvk, hvp, hlt⟩ := hB.came_g k p hk2
        by_cases hpe : p = ((nx, ny) : Pos)
        · subst hpe
          have hv1 := hall vp hvp
          refine ⟨vk, v0 + 1, ?_, ?_, by omega⟩
          · show lookupA (insertA st.g_score (nx, ny) (v0 + 1)) k = some vk
            rw [lookupA_insertA_ne st.g_score (nx, ny) k (v0 + 1) hke]
            exact hvk
          · show lookupA (insertA st.g_score (nx, ny) (v0 + 1)) (nx, ny) = some (v0 + 1)
            exact lookupA_insertA_self _ _ _
        · refine ⟨vk, vp, ?_, ?_, hlt⟩
          · show lookupA (insertA st.g_score (nx, ny) (v0 + 1)) k = some vk
            rw [lookupA_insertA_ne st.g_score (nx, ny) k (v0 + 1) hke]
            exact hvk
          · show lookupA (insertA st.g_score (nx, ny) (v0 + 1)) p = some vp
            rw [lookupA_insertA_ne st.g_score (nx, ny) p (v0 + 1) hpe]
            exact hvp
    · intro k v hk
      by_cases hke : k = ((nx, ny) : Pos)
      · subst hke
        refine Or.inr ⟨cur, ?_⟩
        show lookupA (insertA st.came_from (nx, ny) cur) (nx, ny) = some cur
        exact lookupA_insertA_self _ _ _
      · have hk2 : lookupA st.g_score k = some v := by
          have hk3 : lookupA (insertA st.g_score (nx, ny) (v0 + 1)) k = some v := hk
          rw [lookupA_insertA_ne st.g_score (nx, ny) k (v0 + 1) hke] at hk3
          exact hk3
        rcases hB.g_came k v hk2 with hs | ⟨p, hp⟩
        · exact Or.inl hs
        · refine Or.inr ⟨p, ?_⟩
          show lookupA (insertA st.came_from (nx, ny) cur) k = some p
          rw [lookupA_insertA_ne st.came_from (nx, ny) k cur hke]
          exact hp

theorem relaxEffect_frontier (m : Map) (robots : List Robot) (goal cur : Pos)
    (st st2 : AState) (h : RelaxEffect m robots goal cur st st2)
    (j : Nat) (a b : Pos) (hfa : frontierAt st j a b) : frontierAt st2 j a b := by
  rcases h with rfl | ⟨nx, ny, v0, hadj, hleg, hcur, hall, hnone, rfl⟩
  · exact hfa
  · intro hprem
    obtain ⟨v, hv, hvj⟩ := hprem
    by_cases hae : a = ((nx, ny) : Pos)
    · subst hae
      have hv2 : lookupA (insertA st.g_score (nx, ny) (v0 + 1)) (nx, ny) = some v := hv
      rw [lookupA_insertA_self] at hv2
      injection hv2 with h2
      refine Or.inr ⟨PathNode.make nx ny (v0 + 1) (heuristic nx ny goal.1 goal.2),
        ?_, rfl, ?_⟩
      · show PathNode.make nx ny (v0 + 1) (heuristic nx ny goal.1 goal.2) ∈
          st.open_set ++ [PathNode.make nx ny (v0 + 1) (heuristic nx ny goal.1 goal.2)]
        exact List.mem_append_right _ (List.mem_singleton.mpr rfl)
      · show (PathNode.make nx ny (v0 + 1) (heuristic nx ny goal.1 goal.2)).g_cost ≤ j
        show v0 + 1 ≤ j
        omega
    · have hv2 : lookupA st.g_score a = some v := by
        have hv3 : lookupA (insertA st.g_score (nx, ny) (v0 + 1)) a = some v := hv
        rw [lookupA_insertA_ne st.g_score (nx, ny) a (v0 + 1) hae] at hv3
        exact hv3
      rcases hfa ⟨v, hv2, hvj⟩ with ⟨w, hw, hwj⟩ | ⟨e, hem, hexy, hej⟩
      · by_cases hbe : b = ((nx, ny) : Pos)
        · subst hbe
          have hlt := hall w hw
          refine Or.inl ⟨v0 + 1, ?_, by omega⟩
          show lookupA (insertA st.g_score (nx, ny) (v0 + 1)) (nx, ny) = some (v0 + 1)
          exact lookupA_insertA_self _ _ _
        · refine Or.inl ⟨w, ?_, hwj⟩
          show lookupA (insertA st.g_score (nx, ny) (v0 + 1)) b = some w
          rw [lookupA_insertA_ne st.g_score (nx, ny) b (v0 + 1) hbe]
          exact hw
      · refine Or.inr ⟨e, ?_, hexy, hej⟩
        show e ∈ st.open_set ++
          [PathNode.make nx ny (v0 + 1) (heuristic nx ny goal.1 goal.2)]
        exact List.mem_append_left _ hem

theorem relaxNeighbor_covers (m : Map) (robots : List Robot) (goal cur : Pos)
    (st : AState) (v0 : Nat) (hcur : lookupA st.g_score cur = some v0)
    (hv0 : v0 + 1 < U32_MAX) (b : Pos) (hleg : legalCell m robots b) :
    ∃ w, lookupA (relaxNeighbor m robots goal cur st (some b)).g_score b = some w ∧
      w ≤ v0 + 1 := by
  obtain ⟨nx, ny⟩ := b
  have hbnd := legal_in_bounds m robots (nx, ny) hleg
  obtain ⟨hb1, hb2⟩ := hbnd
  simp only at hb1 hb2
  have hb : ¬ (nx ≥ m.width ∨ ny ≥ m.height) := by omega
  have hv : ¬ (is_valid_move m robots nx ny = false) := by
    have hleg2 : is_valid_move m robots nx ny = true := hleg
    rw [hleg2]
    simp
  by_cases hlt : ((match lookupA st.g_score cur with
      | some w => w
      | none => U32_MAX) + 1) < (match lookupA st.g_score (nx, ny) with
      | some w => w
      | none => U32_MAX)
  · refine ⟨v0 + 1, ?_, le_refl _⟩
    have hres : (relaxNeighbor m robots goal cur st (some (nx, ny))).g_score =
        insertA st.g_score (nx, ny) ((match lookupA st.g_score cur with
          | some w => w
          | none => U32_MAX) + 1) := by
      simp only [relaxNeighbor, if_neg hb, if_neg hv, if_pos hlt]
    rw [hres, hcur]
    exact lookupA_insertA_self _ _ _
  · have hres : relaxNeighbor m robots goal cur st (some (nx, ny)) = st := by
      simp only [relaxNeighbor, if_neg hb, if_neg hv, if_neg hlt]
    rw [hres]
    cases hn : lookupA st.g_score (nx, ny) with
    | none =>
      exfalso
      apply hlt
      rw [hcur, hn]
      show v0 + 1 < U32_MAX
      exact hv0
    | some w =>
      refine ⟨w, rfl, ?_⟩
      rw [hcur, hn] at hlt
      have hlt2 : ¬ (v0 + 1 < w) := hlt
      omega

theorem relaxFold_effect (m : Map) (robots : List Robot) (start goal cur : Pos) :
    ∀ (ns : List (Option Pos)),
      (∀ o ∈ ns, o ∈ neighborOffsets cur.1 cur.2) →
      ∀ st : AState, BaseInv m robots start goal st →
      BaseInv m robots start goal (ns.foldl (relaxNeighbor m robots goal cur) st) ∧
      (∀ k v, lookupA st.g_score k = some v →
        ∃ v', lookupA (ns.foldl (relaxNeighbor m robots goal cur) st).g_score k = some v' ∧
          v' ≤ v) ∧
      (∀ j a b, frontierAt st j a b →
        frontierAt (ns.foldl (relaxNeighbor m robots goal cur) st) j a b) := by
  intro ns
  induction ns with
  | nil =>
    intro hsub st hB
    refine ⟨hB, ?_, ?_⟩
    · intro k v hk
      exact ⟨v, hk, le_refl v⟩
    · intro j a b hf
      exact hf
  | cons o rest ih =>
    intro hsub st hB
    simp only [List.foldl_cons]
    have ho : o ∈ neighborOffsets cur.1 cur.2 := hsub o (List.mem_cons_self o rest)
    have heff := relaxNeighbor_effect m robots goal cur st hB.g_bound o ho
    have hB1 := relaxEffect_baseInv m robots start goal cur st _ heff hB
    have hrest : ∀ o' ∈ rest, o' ∈ neighborOffsets cur.1 cur.2 := by
      intro o' ho'
      exact hsub o' (List.mem_cons_of_mem o ho')
    obtain ⟨hB2, hmono2, hf2⟩ := ih hrest (relaxNeighbor m robots goal cur st o) hB1
    refine ⟨hB2, ?_, ?_⟩
    · intro k v hk
      obtain ⟨v1, hv1, hle1⟩ := relaxEffect_g_mono m robots goal cur st _ heff k v hk
      obtain ⟨v2, hv2, hle2⟩ := hmono2 k v1 hv1
      exact ⟨v2, hv2, le_trans hle2 hle1⟩
    · intro j a b hf
      exact hf2 j a b (relaxEffect_frontier m robots goal cur st _ heff j a b hf)

theorem relaxFold_covers (m : Map) (robots : List Robot) (start goal cur : Pos) :
    ∀ (ns : List (Option Pos)),
      (∀ o ∈ ns, o ∈ neighborOffsets cur.1 cur.2) →
      ∀ st : AState, BaseInv m robots start goal st →
      ∀ v0, lookupA st.g_score cur = some v0 → v0 + 1 < U32_MAX →
      ∀ b : Pos, some b ∈ ns → legalCell m robots b →
      ∃ w, lookupA (ns.foldl (relaxNeighbor m robots goal cur) st).g_score b = some w ∧
        w ≤ v0 + 1 := by
  intro ns
  induction ns with
  | nil =>
    intro hsub st hB v0 hcur hv0 b hb hleg
    simp at hb
  | cons o rest ih =>
    intro hsub st hB v0 hcur hv0 b hb hleg
    simp only [List.foldl_cons]
    have ho : o ∈ neighborOffsets cur.1 cur.2 := hsub o (List.mem_cons_self o rest)
    have heff := relaxNeighbor_effect m robots goal cur st hB.g_bound o ho
    have hB1 := relaxEffect_baseInv m robots start goal cur st _ heff hB
    have hcur1 : lookupA (relaxNeighbor m robots goal cur st o).g_score cur = some v0 := by
      rw [relaxEffect_g_cur m robots goal cur st _ heff]
      exact hcur
    have hrest : ∀ o' ∈ rest, o' ∈ neighborOffsets cur.1 cur.2 := by
      intro o' ho'
      exact hsub o' (List.mem_cons_of_mem o ho')
    rcases List.mem_cons.mp hb with hbo | hbo
    · subst hbo
      obtain ⟨w, hw, hwle⟩ := relaxNeighbor_covers m robots goal cur st v0 hcur hv0 b hleg
      obtain ⟨_, hmono, _⟩ := relaxFold_effect m robots start goal cur rest hrest
        (relaxNeighbor m robots goal cur st (some b)) hB1
      obtain ⟨w2, hw2, hle2⟩ := hmono b w hw
      exact ⟨w2, hw2, le_trans hle2 hwle⟩
    · exact ih hrest (relaxNeighbor m robots goal cur st o) hB1 v0 hcur1 hv0 b hbo hleg

theorem popBaseInv (m : Map) (robots : List Robot) (start goal : Pos) (st : AState)
    (hB : BaseInv m robots start goal st) (c : PathNode) (rest : List PathNode)
    (hpop : popMin st.open_set = some (c, rest)) :
    BaseInv m robots start goal { st with open_set := rest } := by
  have hmem := popMin_mem_iff st.open_set c rest hpop
  constructor
  · intro e he
    have he2 : e ∈ rest := he
    exact hB.open_g e ((hmem e).mpr (Or.inr he2))
  · intro e he
    have he2 : e ∈ rest := he
    exact hB.open_h e ((hmem e).mpr (Or.inr he2))
  · exact hB.g_start
  · exact hB.g_bound
  · exact hB.came_valid
  · exact hB.came_g
  · exact hB.g_came

theorem popRelax_inv (m : Map) (robots : List Robot) (start goal : Pos) (st : AState)
    (hB : BaseInv m robots start goal st) (hF : FrontierInv m robots st)
    (c : PathNode) (rest : List PathNode)
    (hpop : popMin st.open_set = some (c, rest)) :
    BaseInv m robots start goal
      (relaxNeighbors m robots goal (c.x, c.y) { st with open_set := rest }) ∧
    FrontierInv m robots
      (relaxNeighbors m robots goal (c.x, c.y) { st with open_set := rest }) := by
  have hB1 := popBaseInv m robots start goal st hB c rest hpop
  have hsub : ∀ o ∈ neighborOffsets ((c.x, c.y) : Pos).1 ((c.x, c.y) : Pos).2,
      o ∈ neighborOffsets ((c.x, c.y) : Pos).1 ((c.x, c.y) : Pos).2 := fun _ ho => ho
  obtain ⟨hB2, hmono, hfpres⟩ := relaxFold_effect m robots start goal (c.x, c.y)
    (neighborOffsets ((c.x, c.y) : Pos).1 ((c.x, c.y) : Pos).2) hsub
    { st with open_set := rest } hB1
  constructor
  · exact hB2
  · intro j hj a b hadj hleg
    by_cases hf1 : frontierAt { st with open_set := rest } j a b
    · exact hfpres j a b hf1
    · have hprem : ∃ v, lookupA st.g_score a = some v ∧ v ≤ j := by
        by_contra hnp
        exact hf1 (fun hp => absurd hp hnp)
      have hst := hF j hj a b hadj hleg hprem
      rcases hst with hsettled | ⟨e, hem, hexy, hej⟩
      · exfalso
        exact hf1 (fun _ => Or.inl hsettled)
      · rcases (popMin_mem_iff st.open_set c rest hpop e).mp hem with hec | her
        · subst hec
          obtain ⟨v0, hv0, hv0le⟩ := hB.open_g e
            ((popMin_mem_iff st.open_set e rest hpop e).mpr (Or.inl rfl))
          have hadj2 : adjacentPos ((e.x, e.y) : Pos) b := by
            rw [hexy]
            exact hadj
          have hbmem : some b ∈ neighborOffsets e.x e.y :=
            adjacent_mem_neighborOffsets e.x e.y b hadj2
          have hcur1 : lookupA ({ st with open_set := rest } : AState).g_score (e.x, e.y)
              = some v0 := hv0
          obtain ⟨w, hw, hwle⟩ := relaxFold_covers m robots start goal (e.x, e.y)
            (neighborOffsets ((e.x, e.y) : Pos).1 ((e.x, e.y) : Pos).2) hsub
            { st with open_set := rest } hB1 v0 hcur1 (by omega) b hbmem hleg
          exact fun _ => Or.inl ⟨w, hw, by omega⟩
        · exfalso
          exact hf1 (fun _ => Or.inr ⟨e, her, hexy, hej⟩)

theorem chain_bound (m : Map) (robots : List Robot) (start goal : Pos) (st : AState)
    (hB : BaseInv m robots start goal st) (hF : FrontierInv m robots st) :
    ∀ (n : Nat) (z : Pos), ReachN m robots start n z → n + 1 < U32_MAX →
      (∃ w, lookupA st.g_score z = some w ∧ w ≤ n) ∨
      (∃ e ∈ st.open_set, ∃ k, e.g_cost ≤ k ∧ k ≤ n ∧
        ReachN m robots (e.x, e.y) (n - k) z) := by
  intro n
  induction n with
  | zero =>
    intro z hr _
    cases hr
    exact Or.inl ⟨0, hB.g_start, le_refl 0⟩
  | succ n' ih =>
    intro z hr hbig
    obtain ⟨y, hry, hadj, hleg⟩ := ReachN_snoc m robots n' hr
    rcases ih y hry (by omega) with ⟨w, hw, hwn⟩ | ⟨e, hem, k, hek, hkn, hrk⟩
    · have hj : n' + 1 < U32_MAX := by omega
      rcases hF n' hj y z hadj hleg ⟨w, hw, hwn⟩ with ⟨w2, hw2, hw2j⟩ | ⟨e, hem, hexy, hej⟩
      · exact Or.inl ⟨w2, hw2, by omega⟩
      · refine Or.inr ⟨e, hem, n', hej, by omega, ?_⟩
        have h1 : n' + 1 - n' = 1 := by omega
        rw [h1, hexy]
        exact ReachN.step hadj hleg (ReachN.refl z)
    · refine Or.inr ⟨e, hem, k, hek, by omega, ?_⟩
      have h1 : n' + 1 - k = (n' - k) + 1 := by omega
      rw [h1]
      exact ReachN_snoc_mk m robots hrk hadj hleg

theorem reconstructAux_spec (m : Map) (robots : List Robot) (start : Pos)
    (came : List (Pos × Pos)) (g : List (Pos × Nat))
    (hstart : lookupA g start = some 0)
    (hvalid : ∀ k p, lookupA came k = some p → adjacentPos p k ∧ legalCell m robots k)
    (hcg : ∀ k p, lookupA came k = some p →
      ∃ vk vp, lookupA g k = some vk ∧ lookupA g p = some vp ∧ vp < vk)
    (hgc : ∀ k v, lookupA g k = some v → k = start ∨ ∃ p, lookupA came k = some p) :
    ∀ v : Nat, ∀ cur : Pos, lookupA g cur = some v → ∀ fuel : Nat, v ≤ fuel →
      (reconstructAux came fuel cur).head? = some cur ∧
      (reconstructAux came fuel cur).getLast? = some start ∧
      List.Chain' (fun a b => adjacentPos b a ∧ legalCell m robots a)
        (reconstructAux came fuel cur) ∧
      (reconstructAux came fuel cur).length ≤ v + 1 := by
  intro v
  induction v using Nat.strong_induction_on with
  | _ v ih =>
    intro cur hcur fuel hfuel
    cases fuel with
    | zero =>
      have hv0 : v = 0 := by omega
      subst hv0
      cases hc : lookupA came cur with
      | some p =>
        obtain ⟨vk, vp, hvk, hvp, hlt⟩ := hcg cur p hc
        rw [hcur] at hvk
        injection hvk with hvk
        omega
      | none =>
        have hcs : cur = start := by
          rcases hgc cur 0 hcur with h | ⟨p, hp⟩
          · exact h
          · rw [hc] at hp
            exact Option.noConfusion hp
        subst hcs
        exact ⟨rfl, rfl, List.chain'_singleton _, by simp [reconstructAux]⟩
    | succ fuel =>
      cases hc : lookupA came cur with
      | none =>
        have hcs : cur = start := by
          rcases hgc cur v hcur with h | ⟨p, hp⟩
          · exact h
          · rw [hc] at hp
            exact Option.noConfusion hp
        subst hcs
        have hred : reconstructAux came (fuel + 1) cur = [cur] := by
          simp [reconstructAux, hc]
        rw [hred]
        exact ⟨rfl, rfl, List.chain'_singleton _, by simp⟩
      | some p =>
        obtain ⟨vk, vp, hvk, hvp, hlt⟩ := hcg cur p hc
        rw [hcur] at hvk
        injection hvk with hvk
        subst hvk
        have hvpfuel : vp ≤ fuel := by omega
        obtain ⟨hhead, hlast, hchain, hlen⟩ := ih vp hlt p hvp fuel hvpfuel
        have hred : reconstructAux came (fuel + 1) cur =
            cur :: reconstructAux came fuel p := by
          simp [reconstructAux, hc]
        rw [hred]
        refine ⟨rfl, ?_, ?_, ?_⟩
        · cases hl : reconstructAux came fuel p with
          | nil =>
            rw [hl] at hhead
            exact Option.noConfusion hhead
          | cons q t =>
            rw [hl] at hlast
            rw [List.getLast?_cons_cons]
            exact hlast
        · cases hl : reconstructAux came fuel p with
          | nil => exact List.chain'_singleton _
          | cons q t =>
            rw [hl] at hhead hchain
            injection hhead with hq
            subst hq
            rw [List.chain'_cons]
            exact ⟨⟨(hvalid _ _ hc).1, (hvalid _ _ hc).2⟩, hchain⟩
        · simp only [List.length_cons]
          omega

theorem reconstruct_path_spec (m : Map) (robots : List Robot) (start goal : Pos)
    (came : List (Pos × Pos)) (g : List (Pos × Nat)) (v : Nat)
    (hstart : lookupA g start = some 0)
    (hvalid : ∀ k p, lookupA came k = some p → adjacentPos p k ∧ legalCell m robots k)
    (hcg : ∀ k p, lookupA came k = some p →
      ∃ vk vp, lookupA g k = some vk ∧ lookupA g p = some vp ∧ vp < vk)
    (hgc : ∀ k w, lookupA g k = some w → k = start ∨ ∃ p, lookupA came k = some p)
    (hgoal : lookupA g goal = some v) :
    CodePath m robots start goal (reconstruct_path came g goal) ∧
    (reconstruct_path came g goal).length ≤ v + 1 := by
  have hfuel : v ≤ sumG g + 1 := by
    have := lookupA_le_sumG g goal v hgoal
    omega
  obtain ⟨hhead, hlast, hchain, hlen⟩ := reconstructAux_spec m robots start came g
    hstart hvalid hcg hgc v goal hgoal (sumG g + 1) hfuel
  unfold reconstruct_path
  refine ⟨⟨?_, ?_, ?_⟩, ?_⟩
  · rw [List.head?_reverse]
    exact hlast
  · rw [List.getLast?_reverse]
    exact hhead
  · rw [List.chain'_reverse]
    refine List.Chain'.imp ?_ hchain
    intro a b h
    exact h
  · rw [List.length_reverse]
    exact hlen

theorem astarLoop_sound (m : Map) (robots : List Robot) (start goal : Pos)
    (st : AState) :
    BaseInv m robots start goal st → FrontierInv m robots st →
    ∀ p, astarLoop m robots goal st = some p →
      CodePath m robots start goal p ∧
      ∀ n, ReachN m robots start n goal → p.length ≤ n + 1 := by
  induction st using astarLoop.induct m robots goal with
  | case1 st hpop =>
    intro hB hF p h
    rw [astarLoop.eq_def] at h
    split at h
    · exact Option.noConfusion h
    · next c2 rest2 heq =>
      rw [hpop] at heq
      exact Option.noConfusion heq
  | case2 st c rest hpop hgoal =>
    intro hB hF p h
    rw [astarLoop.eq_def] at h
    subst hgoal
    split at h
    · next heq =>
      rw [hpop] at heq
      exact Option.noConfusion heq
    · next c2 rest2 heq =>
      rw [hpop] at heq
      simp only [Option.some.injEq, Prod.mk.injEq] at heq
      obtain ⟨hc, hr⟩ := heq
      subst hc
      subst hr
      rw [if_pos rfl] at h
      injection h with h
      subst h
      have hcmem : c ∈ st.open_set :=
        (popMin_mem_iff st.open_set c rest hpop c).mpr (Or.inl rfl)
      obtain ⟨v, hv, hvle⟩ := hB.open_g c hcmem
      obtain ⟨hspec, hlen⟩ := reconstruct_path_spec m robots start (c.x, c.y)
        st.came_from st.g_score v hB.g_start hB.came_valid hB.came_g hB.g_came hv
      refine ⟨hspec, ?_⟩
      intro n hr
      by_cases hbig : n + 1 < U32_MAX
      · rcases chain_bound m robots start (c.x, c.y) st hB hF n (c.x, c.y) hr hbig with
          ⟨w, hw, hwn⟩ | ⟨e, hem, k, hek, hkn, hrk⟩
        · rw [hv] at hw
          injection hw with hw
          omega
        · have hfe := popMin_f_min st.open_set c rest hpop e hem
          obtain ⟨heh, hef⟩ := hB.open_h e hem
          obtain ⟨hch, hcf⟩ := hB.open_h c hcmem
          have hch0 : c.h_cost = 0 := by
            rw [hch]
            exact heuristic_self c.x c.y
          have hehb : e.h_cost ≤ n - k := by
            rw [heh]
            exact reach_heuristic m robots (e.x, e.y) (c.x, c.y) (n - k) hrk
          omega
      · have hb := hB.g_bound _ _ hv
        have hU : U32_MAX ≤ n + 1 := by omega
        omega
  | case3 st c rest hpop hne ih =>
    intro hB hF p h
    rw [astarLoop.eq_def] at h
    split at h
    · next heq =>
      rw [hpop] at heq
      exact Option.noConfusion heq
    · next c2 rest2 heq =>
      rw [hpop] at heq
      simp only [Option.some.injEq, Prod.mk.injEq] at heq
      obtain ⟨hc, hr⟩ := heq
      subst hc
      subst hr
      rw [if_neg hne] at h
      obtain ⟨hB2, hF2⟩ := popRelax_inv m robots start goal st hB hF c rest hpop
      exact ih hB2 hF2 p h

theorem find_path_init_baseInv (m : Map) (robots : List Robot)
    (sx sy gx gy : Nat) :
    BaseInv m robots (sx, sy) (gx, gy)
      ⟨[PathNode.make sx sy 0 (heuristic sx sy gx gy)], [], [((sx, sy), 0)]⟩ := by
  constructor
  · intro e he
    have he2 : e ∈ [PathNode.make sx sy 0 (heuristic sx sy gx gy)] := he
    simp only [List.mem_singleton] at he2
    subst he2
    refine ⟨0, ?_, le_refl 0⟩
    show lookupA [((sx, sy), 0)] (sx, sy) = some 0
    simp [lookupA]
  · intro e he
    have he2 : e ∈ [PathNode.make sx sy 0 (heuristic sx sy gx gy)] := he
    simp only [List.mem_singleton] at he2
    subst he2
    exact ⟨rfl, rfl⟩
  · show lookupA [((sx, sy), 0)] (sx, sy) = some 0
    simp [lookupA]
  · intro k v hk
    have hk2 : (if ((sx, sy) : Pos) = k then some 0 else (none : Option Nat)) =
        some v := hk
    split at hk2
    · injection hk2 with h2
      have hv0 : v = 0 := by omega
      subst hv0
      show 0 < U32_MAX
      decide
    · exact Option.noConfusion hk2
  · intro k p hk
    exact Option.noConfusion hk
  · intro k p hk
    exact Option.noConfusion hk
  · intro k v hk
    have hk2 : (if ((sx, sy) : Pos) = k then some 0 else (none : Option Nat)) =
        some v := hk
    split at hk2
    · next heq => exact Or.inl heq.symm
    · exact Option.noConfusion hk2

theorem find_path_init_frontier (m : Map) (robots : List Robot) (sx sy gx gy : Nat) :
    FrontierInv m robots
      ⟨[PathNode.make sx sy 0 (heuristic sx sy gx gy)], [], [((sx, sy), 0)]⟩ := by
  intro j hj a b hadj hleg hprem
  obtain ⟨v, hv, hvj⟩ := hprem
  have hv2 : (if ((sx, sy) : Pos) = a then some 0 else (none : Option Nat)) = some v := hv
  split at hv2
  · next heq =>
    refine Or.inr ⟨PathNode.make sx sy 0 (heuristic sx sy gx gy), ?_, ?_, ?_⟩
    · exact List.mem_singleton.mpr rfl
    · show ((sx, sy) : Pos) = a
      exact heq
    · show 0 ≤ j
      omega
  · exact Option.noConfusion hv2

theorem find_path_sound (m : Map) (robots : List Robot) (sx sy gx gy : Nat)
    (p : List Pos) (h : find_path m robots sx sy gx gy = some p) :
    CodePath m robots (sx, sy) (gx, gy) p ∧
    ∀ n, ReachN m robots (sx, sy) n (gx, gy) → p.length ≤ n + 1 := by
  have h2 : astarLoop m robots (gx, gy)
      ⟨[PathNode.make sx sy 0 (heuristic sx sy gx gy)], [], [((sx, sy), 0)]⟩ =
      some p := h
  exact astarLoop_sound m robots (sx, sy) (gx, gy) _
    (find_path_init_baseInv m robots sx sy gx gy)
    (find_path_init_frontier m robots sx sy gx gy) p h2

theorem codePath_reach (m : Map) (robots : List Robot) :
    ∀ (q : List Pos) (s g : Pos), CodePath m robots s g q →
      ReachN m robots s (q.length - 1) g := by
  intro q
  induction q with
  | nil =>
    intro s g h
    exact Option.noConfusion h.1
  | cons a t ih =>
    intro s g h
    obtain ⟨hh, hl, hc⟩ := h
    injection hh with hh
    subst hh
    cases t with
    | nil =>
      injection hl with hl
      subst hl
      exact ReachN.refl a
    | cons b t2 =>
      rw [List.chain'_cons] at hc
      obtain ⟨hstep, hc2⟩ := hc
      rw [List.getLast?_cons_cons] at hl
      have hihr : ReachN m robots b t2.length g := ih b g ⟨rfl, hl, hc2⟩
      show ReachN m robots a (t2.length + 1) g
      exact ReachN.step hstep.1 hstep.2 hihr

/-- C1 (corrected): for every grid, robot list and endpoints, if `find_path`
returns a path then it is a sequence of 4-directionally adjacent positions
from start to goal in which every position after the first is legal
(in-bounds, non-obstacle, not occupied by another robot with positive
energy), and it is of minimum length among all such sequences; if no such
sequence exists, `find_path` returns `none`.  The original claim is refuted
(see the counterexample): the start position itself is never checked for
legality, so a returned path's first position may be an obstacle. -/
theorem claim_C1_find_path (m : Map) (robots : List Robot) (sx sy gx gy : Nat) :
    (∀ p, find_path m robots sx sy gx gy = some p →
      CodePath m robots (sx, sy) (gx, gy) p ∧
      ∀ q, CodePath m robots (sx, sy) (gx, gy) q → p.length ≤ q.length) ∧
    ((¬ ∃ q, CodePath m robots (sx, sy) (gx, gy) q) →
      find_path m robots sx sy gx gy = none) := by
  constructor
  · intro p hp
    obtain ⟨hcp, hmin⟩ := find_path_sound m robots sx sy gx gy p hp
    refine ⟨hcp, ?_⟩
    intro q hq
    have hr := codePath_reach m robots q (sx, sy) (gx, gy) hq
    have hle := hmin (q.length - 1) hr
    have hqne : q ≠ [] := by
      intro he
      rw [he] at hq
      exact Option.noConfusion hq.1
    have hpos : 1 ≤ q.length := List.length_pos.mpr hqne
    omega
  · intro hno
    cases hfp : find_path m robots sx sy gx gy with
    | none => rfl
    | some p =>
      exfalso
      exact hno ⟨p, (find_path_sound m robots sx sy gx gy p hfp).1⟩

/-- C1 witness: on the one-cell empty grid, `find_path` from `(0,0)` to
itself returns `some [(0,0)]`, and the theorem yields that this is a valid
path from start to goal. -/
theorem claim_C1_find_path_witness :
    CodePath (Map.mk 1 1 [[Cell.mk CellType.Empty false]]) [] (0, 0) (0, 0)
      [(0, 0)] :=
  ((claim_C1_find_path (Map.mk 1 1 [[Cell.mk CellType.Empty false]]) [] 0 0 0 0).1
    [(0, 0)] (by
      simp only [find_path]
      rw [astarLoop.eq_def]
      decide)).1

/-- C1 counterexample: on a grid whose only cell is an obstacle, `find_path`
from `(0,0)` to itself returns `some [(0,0)]` although `(0,0)` is not a legal
(passable) position — the returned path is not a sequence of legal positions,
refuting the claim as stated. -/
theorem claim_C1_counterexample :
    find_path (Map.mk 1 1 [[Cell.mk CellType.Obstacle false]]) [] 0 0 0 0 =
      some [(0, 0)] ∧
    ¬ legalCell (Map.mk 1 1 [[Cell.mk CellType.Obstacle false]]) [] (0, 0) := by
  constructor
  · simp only [find_path]
    rw [astarLoop.eq_def]
    decide
  · intro h
    have h2 : is_valid_move (Map.mk 1 1 [[Cell.mk CellType.Obstacle false]]) [] 0 0 =
        true := h
    exact absurd h2 (by decide)
